import Mathlib

/-!
Verification development for the Markdown-Bridge translation pipeline
(`src/main.py`).  The Python functions are shallowly embedded as Lean
functions over `List Char`; every regular expression used by the source is
replaced by a bespoke scanner implementing exactly the behaviour of the
Python `re` calls on the shapes of text the source feeds them (lazy dots,
greedy digit runs, `re.IGNORECASE`, left-to-right non-overlapping
`findall`/`sub` semantics).  Python `dict`s are embedded as insertion-ordered
association lists with update-in-place, which matches CPython's iteration
order guarantees that the source relies on.
-/

namespace MarkdownBridge

abbrev Chars := List Char

/-- Python `str.lower()` restricted to the ASCII range, which is the only
range the source ever lower-cases (placeholder tokens). -/
def pyLower (s : Chars) : Chars := s.map Char.toLower

/-- The characters matched by `\s` / stripped by `str.strip()` (ASCII part,
the only whitespace appearing in the embedded texts). -/
def isPySpace (c : Char) : Bool :=
  c = ' ' || c = '\t' || c = '\n' || c = '\x0b' || c = '\x0c' || c = '\r'

/-- Python `str.strip()` with no argument. -/
def pyStrip (s : Chars) : Chars :=
  ((s.dropWhile isPySpace).reverse.dropWhile isPySpace).reverse

/-- Splits off the maximal leading run of ASCII digits (the greedy `\d+`). -/
def takeDigits (s : Chars) : Chars × Chars :=
  (s.takeWhile Char.isDigit, s.dropWhile Char.isDigit)

/-- Python `int(...)` on a digit string. -/
def digitsToNat (s : Chars) : Nat :=
  s.foldl (fun n c => 10 * n + (c.toNat - '0'.toNat)) 0

/-- Python `pat in hay` (substring test): `pat` is a prefix of some suffix
of `hay`. -/
def strContains (hay pat : Chars) : Bool :=
  match hay with
  | [] => pat.isPrefixOf []
  | _ :: cs => pat.isPrefixOf hay || strContains cs pat

/-- Ordered association-list lookup: Python `d.get(k)` / `d[k]`. -/
def alistGet? {α : Type} : List (Chars × α) → Chars → Option α
  | [], _ => none
  | (k', v) :: rest, k => if k' = k then some v else alistGet? rest k

/-- Ordered association-list assignment: Python `d[k] = v`.  An existing key
keeps its position (CPython dict semantics); a new key is appended. -/
def alistSet {α : Type} : List (Chars × α) → Chars → α → List (Chars × α)
  | [], k, v => [(k, v)]
  | (k', v') :: rest, k, v =>
    if k' = k then (k', v) :: rest else (k', v') :: alistSet rest k v

/-- Python `str.replace(old, new)`: all non-overlapping occurrences, scanned
left to right.  (No call site in the source passes an empty `old`.) -/
def replaceAllAux (pat rep : Chars) : Nat → Chars → Chars
  | 0, s => s
  | _ + 1, [] => []
  | fuel + 1, c :: cs =>
    if pat.isPrefixOf (c :: cs) then
      rep ++ replaceAllAux pat rep fuel ((c :: cs).drop pat.length)
    else
      c :: replaceAllAux pat rep fuel cs

def pyReplace (s pat rep : Chars) : Chars :=
  if pat = [] then s else replaceAllAux pat rep s.length s

/-- Python `str.replace(old, new, 1)`: first occurrence only. -/
def replaceFirstAux (pat rep : Chars) : Nat → Chars → Chars
  | 0, s => s
  | _ + 1, [] => []
  | fuel + 1, c :: cs =>
    if pat.isPrefixOf (c :: cs) then rep ++ (c :: cs).drop pat.length
    else c :: replaceFirstAux pat rep fuel cs

def pyReplace1 (s pat rep : Chars) : Chars :=
  replaceFirstAux pat rep s.length s

/-- Lazy scan used for `X*?delim` regex fragments: splits `s` as
`pre ++ delim ++ rest` with the shortest possible `pre`.  When `nlOk` is
false, `pre` may not contain a newline (regex `.` does not match `\n`;
with `[\s\S]` or `[^x]` classes, or `re.DOTALL`, it does). -/
def scanUpTo (delim : Chars) (nlOk : Bool) : Nat → Chars → Option (Chars × Chars)
  | 0, _ => none
  | fuel + 1, s =>
    if delim.isPrefixOf s then some ([], s.drop delim.length)
    else
      match s with
      | [] => none
      | c :: cs =>
        if !nlOk && c = '\n' then none
        else (scanUpTo delim nlOk fuel cs).map (fun pr => (c :: pr.1, pr.2))

/-- `re.findall` driver: `m s` attempts a match at the head of `s`, returning
the consumed length and the captured value; matches are non-overlapping and
collected left to right. -/
def reFindallAux {α : Type} (m : Chars → Option (Nat × α)) : Nat → Chars → List α
  | 0, _ => []
  | fuel + 1, s =>
    match m s with
    | some (n, a) =>
      if n = 0 then
        match s with
        | [] => [a]
        | _ :: cs => a :: reFindallAux m fuel cs
      else a :: reFindallAux m fuel (s.drop n)
    | none =>
      match s with
      | [] => []
      | _ :: cs => reFindallAux m fuel cs

def reFindall {α : Type} (m : Chars → Option (Nat × α)) (s : Chars) : List α :=
  reFindallAux m (s.length + 1) s

/-- `re.sub` driver: `m s` attempts a match at the head of `s`, returning the
consumed length and the replacement text. -/
def reSubAux (m : Chars → Option (Nat × Chars)) : Nat → Chars → Chars
  | 0, s => s
  | _ + 1, [] => []
  | fuel + 1, c :: cs =>
    match m (c :: cs) with
    | some (n, rep) =>
      if n = 0 then c :: reSubAux m fuel cs
      else rep ++ reSubAux m fuel ((c :: cs).drop n)
    | none => c :: reSubAux m fuel cs

def reSub (m : Chars → Option (Nat × Chars)) (s : Chars) : Chars :=
  reSubAux m s.length s

/-- Case-insensitive literal prefix test (`re.IGNORECASE` over the ASCII
letters occurring in the source's placeholder patterns). -/
def ciHasPre (pat s : Chars) : Bool :=
  match pat, s with
  | [], _ => true
  | _ :: _, [] => false
  | p :: ps, c :: cs => p.toLower = c.toLower && ciHasPre ps cs

/-- Matches `pre(\d+)suf` at the head of `s` (case-insensitively when `ci`),
with the digit run greedy; returns the consumed length and the digit group.
All suffixes used by the source begin with a non-digit, so the greedy run
never needs to backtrack. -/
def matchPreNumSuf (ci : Bool) (pre suf : Chars) (s : Chars) : Option (Nat × Chars) :=
  let preOk := if ci then ciHasPre pre s else pre.isPrefixOf s
  if preOk then
    let rest := s.drop pre.length
    let ds := rest.takeWhile Char.isDigit
    if ds = [] then none
    else
      let rest2 := rest.drop ds.length
      let sufOk := if ci then ciHasPre suf rest2 else suf.isPrefixOf rest2
      if sufOk then some (pre.length + ds.length + suf.length, ds) else none
  else none

/-- Python `text.split(sep)` for a one-character separator. -/
def splitOnC (sep : Char) : Chars → List Chars
  | [] => [[]]
  | c :: cs =>
    if c = sep then [] :: splitOnC sep cs
    else
      match splitOnC sep cs with
      | [] => [[c]]
      | h :: t => (c :: h) :: t

/-! ### Token engine for the `complex_math_patterns` battery

Each of the 22 regexes in `LatexFormulaHandler.complex_math_patterns` is a
sequence of literal fragments and lazy `.*?` gaps (`.` not matching `\n`),
so they are represented as token lists run by a single backtracking lazy
matcher. -/

inductive MTok where
  | lit (s : Chars)
  | dot
deriving Repr

/-- Backtracking matcher with Python lazy-`.*?` semantics: the gap first
tries to match nothing and grows one character at a time while the rest of
the pattern keeps failing.  Returns the consumed length.  `fuel` only needs
to exceed the pattern length plus the text length. -/
def matchToks : Nat → List MTok → Chars → Option Nat
  | 0, _, _ => none
  | _ + 1, [], _ => some 0
  | fuel + 1, .lit l :: ts, s =>
    if l.isPrefixOf s then (matchToks fuel ts (s.drop l.length)).map (l.length + ·)
    else none
  | fuel + 1, .dot :: ts, s =>
    match matchToks fuel ts s with
    | some n => some n
    | none =>
      match s with
      | [] => none
      | c :: cs =>
        if c = '\n' then none
        else (matchToks fuel (.dot :: ts) cs).map (· + 1)

/-- `re.findall(pattern, text)` for a groupless token pattern: the captured
values are the full matches. -/
def findallToks (toks : List MTok) (s : Chars) : List Chars :=
  reFindall (fun t => (matchToks (t.length + toks.length + 30) toks t).map
    (fun n => (n, t.take n))) s

/-! ### Data model

`special_elements` is a Python dict whose values are strings except for the
distinguished `"__ALL_IMAGE_PATHS__"` entry, which holds the ordered list of
`(has_title, title, url, placeholder)` tuples built by
`protect_special_elements`. -/

structure ImageInfo where
  hasTitle : Bool
  title : Chars
  url : Chars
  ph : Chars
deriving DecidableEq, Repr

inductive ElemVal where
  | str (s : Chars)
  | imgs (l : List ImageInfo)
deriving DecidableEq, Repr

abbrev Registry := List (Chars × ElemVal)

def regKeys (es : Registry) : List Chars := es.map (·.1)

/-- Markdown text of a titled image, `![title](url)`. -/
def mdImageT (title url : Chars) : Chars :=
  "![".data ++ title ++ "](".data ++ url ++ ")".data

/-- Markdown text of an untitled image, `![](url)`. -/
def mdImageU (url : Chars) : Chars := "![](".data ++ url ++ ")".data

def imageMd (info : ImageInfo) : Chars :=
  if info.hasTitle then mdImageT info.title info.url else mdImageU info.url

/-! ### `LatexFormulaHandler.fix_formula_format` (src/main.py lines 115-159) -/

/-- Scanner for `re.sub(r'PRE\s*([^}]*)\s*\}', r'PRE\1}', f)` shapes, where
`PRE` ends in `{` (the `\mathrm`/`\mathbf`/`^{`/`_{`/`\widetilde`/`\tilde`
space-trimming substitutions).  The first greedy `\s*` eats the leading
whitespace; the greedy `([^}]*)` then runs all the way to the first `}` and
never backtracks, because the final `\s*` happily matches the empty string.
So the captured group is the brace content with only its *leading*
whitespace stripped. -/
def tryTrimGroup (pre : Chars) (s : Chars) : Option (Nat × Chars) :=
  if pre.isPrefixOf s then
    let rest := s.drop pre.length
    (scanUpTo ['\x7d'] true (rest.length + 1) rest).map
      (fun pr => (pre.length + pr.1.length + 1, pre ++ pr.1.dropWhile isPySpace ++ ['\x7d']))
  else none

/-- `re.sub(r'\\mathbf\{([^}]+)\}\\mathbf\{([^}]+)\}', r'\\mathbf{\1\2}', f)`:
merges two textually adjacent `\mathbf` groups. -/
def tryMathbfMerge (s : Chars) : Option (Nat × Chars) :=
  let pre := "\\mathbf\x7b".data
  if pre.isPrefixOf s then
    match scanUpTo ['\x7d'] true ((s.drop pre.length).length + 1) (s.drop pre.length) with
    | some (i1, rest1) =>
      if i1 = [] then none
      else if pre.isPrefixOf rest1 then
        match scanUpTo ['\x7d'] true ((rest1.drop pre.length).length + 1) (rest1.drop pre.length) with
        | some (i2, _) =>
          if i2 = [] then none
          else some (2 * (pre.length + 1) + i1.length + i2.length,
                     pre ++ i1 ++ i2 ++ ['\x7d'])
        | none => none
      else none
    | none => none
  else none

/-- `re.sub(r'\$\{\\sim\}([^$]+)\$', r'$\\sim \1$', f)`. -/
def trySimBrace (s : Chars) : Option (Nat × Chars) :=
  let pre := "$\x7b\\sim\x7d".data
  if pre.isPrefixOf s then
    match scanUpTo ['$'] true ((s.drop pre.length).length + 1) (s.drop pre.length) with
    | some (inner, _) =>
      if inner = [] then none
      else some (pre.length + inner.length + 1, "$\\sim ".data ++ inner ++ ['$'])
    | none => none
  else none

/-- `re.sub(r'_\$\{\\sim\}([^$]+)\$', r'$\\sim \1$', f)`: same as above with
a leading underscore that the replacement drops. -/
def trySimUnderscore (s : Chars) : Option (Nat × Chars) :=
  let pre := "_$\x7b\\sim\x7d".data
  if pre.isPrefixOf s then
    match scanUpTo ['$'] true ((s.drop pre.length).length + 1) (s.drop pre.length) with
    | some (inner, _) =>
      if inner = [] then none
      else some (pre.length + inner.length + 1, "$\\sim ".data ++ inner ++ ['$'])
    | none => none
  else none

/-- `LatexFormulaHandler.fix_formula_format`, step for step. -/
def fix_formula_format (formula0 : Chars) : Chars :=
  let f := pyReplace formula0 " $".data "$".data
  let f := pyReplace f "$ ".data "$".data
  -- source lines 130-131 replace '$^{' and '$_{' by themselves (no-ops kept verbatim)
  let f := pyReplace f "$^\x7b".data "$^\x7b".data
  let f := pyReplace f "$_\x7b".data "$_\x7b".data
  let f := reSub trySimBrace f
  let f := reSub trySimUnderscore f
  let f := reSub (tryTrimGroup "\\mathrm\x7b".data) f
  let f := reSub (tryTrimGroup "\\mathbf\x7b".data) f
  let f := reSub tryMathbfMerge f
  let f := reSub (tryTrimGroup "^\x7b".data) f
  let f := reSub (tryTrimGroup "_\x7b".data) f
  let f := reSub (tryTrimGroup "\\widetilde\x7b".data) f
  let f := reSub (tryTrimGroup "\\tilde\x7b".data) f
  pyReplace f "\x7b\x7d".data []

/-- The 22 regexes of `complex_math_patterns` (src/main.py lines 37-60) as
token sequences, in source order. -/
def complex_math_patterns : List (List MTok) :=
  [ [.lit "$".data, .dot, .lit "\\mathbf\x7b".data, .dot, .lit "\x7d".data, .dot, .lit "$".data],
    [.lit "$".data, .dot, .lit "\\mathrm\x7b".data, .dot, .lit "\x7d".data, .dot, .lit "$".data],
    [.lit "$".data, .dot, .lit "\\text\x7b".data, .dot, .lit "\x7d".data, .dot, .lit "$".data],
    [.lit "$".data, .dot, .lit "\\left".data, .dot, .lit "\\right".data, .dot, .lit "$".data],
    [.lit "$".data, .dot, .lit "\\frac\x7b".data, .dot, .lit "\x7d\x7b".data, .dot, .lit "\x7d".data, .dot, .lit "$".data],
    [.lit "$".data, .dot, .lit "\\sum".data, .dot, .lit "$".data],
    [.lit "$".data, .dot, .lit "\\prod".data, .dot, .lit "$".data],
    [.lit "$".data, .dot, .lit "\\int".data, .dot, .lit "$".data],
    [.lit "$".data, .dot, .lit " for ".data, .dot, .lit "$".data],
    [.lit "$".data, .dot, .lit "^\x7b".data, .dot, .lit "\x7d".data, .dot, .lit "$".data],
    [.lit "$".data, .dot, .lit "_\x7b".data, .dot, .lit "\x7d".data, .dot, .lit "$".data],
    [.lit "$".data, .dot, .lit "\\widetilde\x7b".data, .dot, .lit "\x7d".data, .dot, .lit "$".data],
    [.lit "$".data, .dot, .lit "\\mathit\x7b".data, .dot, .lit "\x7d".data, .dot, .lit "$".data],
    [.lit "$".data, .dot, .lit "\\Pi".data, .dot, .lit "$".data],
    [.lit "$".data, .dot, .lit "\\Gamma".data, .dot, .lit "$".data],
    [.lit "$".data, .dot, .lit "\\nabla".data, .dot, .lit "$".data],
    [.lit "$".data, .dot, .lit "\\sim".data, .dot, .lit "$".data],
    [.lit "$".data, .dot, .lit "\\tilde".data, .dot, .lit "$".data],
    [.lit "$".data, .dot, .lit "\\cdot".data, .dot, .lit "$".data],
    [.lit "$^".data, .dot, .lit "$".data],
    [.lit "$_".data, .dot, .lit "$".data],
    [.lit "$\\".data, .dot, .lit "$".data] ]

/-! ### `LatexFormulaHandler.protect_formulas` (src/main.py lines 74-113) -/

/-- `\$\$[\s\S]*?\$\$` at head; the capture is the whole match. -/
def matchBlockMath (s : Chars) : Option (Nat × Chars) :=
  if "$$".data.isPrefixOf s then
    (scanUpTo "$$".data true ((s.drop 2).length + 1) (s.drop 2)).map
      (fun pr => (4 + pr.1.length, "$$".data ++ pr.1 ++ "$$".data))
  else none

/-- `\$[^\$]+?\$` at head; the capture is the whole match. -/
def matchInlineMath (s : Chars) : Option (Nat × Chars) :=
  if "$".data.isPrefixOf s then
    match scanUpTo "$".data true ((s.drop 1).length + 1) (s.drop 1) with
    | some (inner, _) =>
      if inner = [] then none
      else some (inner.length + 2, "$".data ++ inner ++ "$".data)
    | none => none
  else none

/-- The canonical sentinel `__<KIND>_<N>__`. -/
def placeholderOf (kind : Chars) (n : Nat) : Chars :=
  "__".data ++ kind ++ "_".data ++ Nat.toDigits 10 n ++ "__".data

/-- `any(formula == special_elements[key] for key in special_elements)`:
only string values can compare equal to a string. -/
def valueRegistered (es : Registry) (f : Chars) : Bool :=
  es.any (fun kv => match kv.2 with | .str s => s = f | .imgs _ => false)

/-- Block-formula pass (src/main.py lines 87-92): the shared math counter
and registry are threaded through the state. -/
def protectBlockMath (st0 : Chars × Registry × Nat) : Chars × Registry × Nat :=
  (reFindall matchBlockMath st0.1).foldl (fun (st : Chars × Registry × Nat) formula =>
    let ph := placeholderOf "BLOCK_MATH".data st.2.2
    (pyReplace1 st.1 formula ph, alistSet st.2.1 ph (.str formula), st.2.2 + 1)) st0

/-- Inline-formula pass (src/main.py lines 95-100). -/
def protectAllInlineMath (st0 : Chars × Registry × Nat) : Chars × Registry × Nat :=
  (reFindall matchInlineMath st0.1).foldl (fun (st : Chars × Registry × Nat) formula =>
    let ph := placeholderOf "ALL_MATH".data st.2.2
    (pyReplace1 st.1 formula ph, alistSet st.2.1 ph (.str formula), st.2.2 + 1)) st0

/-- Complex-pattern pass (src/main.py lines 103-111): findall runs on the
text as it stands when each pattern's turn comes, and value-duplicates are
suppressed. -/
def protectComplexMath (st0 : Chars × Registry × Nat) : Chars × Registry × Nat :=
  complex_math_patterns.foldl (fun (st : Chars × Registry × Nat) pat =>
    (findallToks pat st.1).foldl (fun (st : Chars × Registry × Nat) formula =>
      if valueRegistered st.2.1 formula then st
      else
        let ph := placeholderOf "COMPLEX_MATH".data st.2.2
        (pyReplace1 st.1 formula ph, alistSet st.2.1 ph (.str formula), st.2.2 + 1))
      st) st0

def protect_formulas (text0 : Chars) (elems0 : Registry) (counter0 : Nat) :
    Chars × Registry × Nat :=
  protectComplexMath (protectAllInlineMath (protectBlockMath (text0, elems0, counter0)))

/-! ### `LatexFormulaHandler.restore_formulas` (src/main.py lines 161-239) -/

/-- `re.match(r'__([A-Za-z_]+)_(\d+)__', placeholder)`: the greedy
`[A-Za-z_]+` cannot contain digits, so it must give back exactly one `_`
before the digit run; returns `(type_name, number)`. -/
def matchTypeNum (p : Chars) : Option (Chars × Chars) :=
  if "__".data.isPrefixOf p then
    let rest := p.drop 2
    let run := rest.takeWhile (fun c => c.isAlpha || c = '_')
    let rest2 := rest.drop run.length
    let ds := rest2.takeWhile Char.isDigit
    let rest3 := rest2.drop ds.length
    if run.length ≥ 2 && run.getLast? = some '_' && ds ≠ [] &&
        "__".data.isPrefixOf rest3 then
      some (run.dropLast, ds)
    else none
  else none

def isDunder (p : Chars) : Bool :=
  "__".data.isPrefixOf p && "__".data.isSuffixOf p

def endsWithMATH (tn : Chars) : Bool := "MATH".data.isSuffixOf tn

/-- `re.search(r'MATH', p, re.IGNORECASE)` as a Bool. -/
def containsMATHci (p : Chars) : Bool := strContains (pyLower p) "math".data

/-- The variant list built for one placeholder (src/main.py lines 188-204,
repeated verbatim at lines 440-462), in source order. -/
def placeholderVariants (ph tn num : Chars) : List Chars :=
  let tl := pyLower tn
  [ ph,
    pyLower ph,
    "__".data ++ tl ++ "_".data ++ num ++ "__".data,
    "_".data ++ tl ++ "_".data ++ num ++ "_".data,
    "_ ".data ++ tl ++ "_".data ++ num ++ " _".data,
    "\x7b".data ++ tl ++ "_".data ++ num ++ "\x7d".data,
    "__".data ++ tl ++ "_".data ++ pyLower num ++ "__".data,
    "__ ".data ++ tl ++ " _ ".data ++ num ++ " __".data,
    "__".data ++ tl ++ "_".data ++ num ++ "__".data,
    "__".data ++ tl ++ num ++ "__".data,
    "__".data ++ tl ++ "-".data ++ num ++ "__".data,
    "__ _".data ++ tl ++ "_".data ++ num ++ "__".data,
    "___ ".data ++ tl ++ "_".data ++ num ++ "__".data,
    "__ ".data ++ tl ++ "_".data ++ num ++ "__".data ]

/-- The 8 `math_placeholder_patterns` (src/main.py lines 63-72) as
(prefix, suffix) pairs around `(?:COMPLEX|INLINE|BLOCK|ALL)_MATH_\d+`. -/
def math_placeholder_patterns : List (Chars × Chars) :=
  [ ("__".data, "__".data),
    ("_".data, "_".data),
    ("_ ".data, " _".data),
    ("\x7b".data, "\x7d".data),
    ("___ ".data, "__".data),
    ("__ _".data, "__".data),
    ("__ ".data, "__".data),
    ("___ _".data, "__".data) ]

def mathKinds : List Chars := ["COMPLEX".data, "INLINE".data, "BLOCK".data, "ALL".data]

/-- Case-insensitive head match of one `math_placeholder_patterns` entry;
the capture is the whole match. -/
def matchMathPh (pre suf : Chars) (s : Chars) : Option (Nat × Chars) :=
  mathKinds.findSome? (fun k =>
    (matchPreNumSuf true (pre ++ k ++ "_MATH_".data) suf s).map
      (fun pr => (pr.1, s.take pr.1)))

/-- One step of the tier-1 variation-map construction (src/main.py lines
173-204): a dunder key whose parsed type name ends in `MATH` contributes
its whole variant table, all bound to the raw original. -/
def mvmStep (m : List (Chars × Chars)) (kv : Chars × ElemVal) : List (Chars × Chars) :=
  if !(isDunder kv.1) then m
  else
    match matchTypeNum kv.1 with
    | none => m
    | some (tn, num) =>
      if !(endsWithMATH tn) then m
      else
        match kv.2 with
        | .str orig =>
          (placeholderVariants kv.1 tn num).foldl (fun m v => alistSet m v orig) m
        | .imgs _ => m   -- unreachable: the image-list key has no digits

/-- The tier-1 `all_variations_map` of `restore_formulas`. -/
def mathVariationsMap (elems : Registry) : List (Chars × Chars) :=
  elems.foldl mvmStep []

/-- Tier 1 (src/main.py lines 206-208): direct substitution of every known
variant, the original being passed through `fix_formula_format`. -/
def mathTier1 (elems : Registry) (t : Chars) : Chars :=
  (mathVariationsMap elems).foldl
    (fun t vo => pyReplace t vo.1 (fix_formula_format vo.2)) t

/-- Tier-2 per-match processing (src/main.py lines 213-226): the match is
compared case-folded against every placeholder for substring containment in
either direction; the first hit is substituted (normalized) and the
placeholder loop breaks. -/
def mathTier2Subst (elems : Registry) (t m : Chars) : Chars :=
  match elems.find? (fun kv =>
    isDunder kv.1 && containsMATHci kv.1 &&
    (strContains (pyLower m) (pyLower kv.1) || strContains (pyLower kv.1) (pyLower m))) with
  | some kv =>
    match kv.2 with
    | .str orig => pyReplace t m (fix_formula_format orig)
    | .imgs _ => t   -- unreachable: that key does not contain "MATH"
  | none => t

/-- Tier 2 (src/main.py lines 211-226): pattern scan over the battery. -/
def mathTier2 (elems : Registry) (t : Chars) : Chars :=
  math_placeholder_patterns.foldl (fun t ps =>
    (reFindall (fun s => matchMathPh ps.1 ps.2 s) t).foldl
      (fun t m => mathTier2Subst elems t m) t) t

/-- Tier 3 (src/main.py lines 229-237): any MATH placeholder still present
verbatim is substituted, again normalized. -/
def mathTier3 (elems : Registry) (t : Chars) : Chars :=
  elems.foldl (fun t kv =>
    if isDunder kv.1 && containsMATHci kv.1 && strContains t kv.1 then
      match kv.2 with
      | .str orig => pyReplace t kv.1 (fix_formula_format orig)
      | .imgs _ => t
    else t) t

def restore_formulas (text0 : Chars) (elems : Registry) : Chars :=
  mathTier3 elems (mathTier2 elems (mathTier1 elems text0))

/-! #### Contrast model for the substitution policy

`restore_formulas_raw` follows the words of the implicit claim about the
substitution policy: it is `restore_formulas` with the single difference
that every substitution site inserts the raw registered text instead of
`fix_formula_format` of it.  Comparing the two exhibits which text the
source actually substitutes. -/

def mathTier1Raw (elems : Registry) (t : Chars) : Chars :=
  (mathVariationsMap elems).foldl (fun t vo => pyReplace t vo.1 vo.2) t

def mathTier2SubstRaw (elems : Registry) (t m : Chars) : Chars :=
  match elems.find? (fun kv =>
    isDunder kv.1 && containsMATHci kv.1 &&
    (strContains (pyLower m) (pyLower kv.1) || strContains (pyLower kv.1) (pyLower m))) with
  | some kv =>
    match kv.2 with
    | .str orig => pyReplace t m orig
    | .imgs _ => t
  | none => t

def mathTier2Raw (elems : Registry) (t : Chars) : Chars :=
  math_placeholder_patterns.foldl (fun t ps =>
    (reFindall (fun s => matchMathPh ps.1 ps.2 s) t).foldl
      (fun t m => mathTier2SubstRaw elems t m) t) t

def mathTier3Raw (elems : Registry) (t : Chars) : Chars :=
  elems.foldl (fun t kv =>
    if isDunder kv.1 && containsMATHci kv.1 && strContains t kv.1 then
      match kv.2 with
      | .str orig => pyReplace t kv.1 orig
      | .imgs _ => t
    else t) t

def restore_formulas_raw (text0 : Chars) (elems : Registry) : Chars :=
  mathTier3Raw elems (mathTier2Raw elems (mathTier1Raw elems text0))

/-- Normalisation of one registry value by the Formula Normalizer. -/
def normalizeVal : ElemVal → ElemVal
  | .str s => .str (fix_formula_format s)
  | .imgs l => .imgs l

/-- The registry with every string value normalised. -/
def normalizeRegistry (elems : Registry) : Registry :=
  elems.map (fun kv => (kv.1, normalizeVal kv.2))

/-- The tier-1 variant-table keys of `__BLOCK_MATH_0__` other than the
placeholder itself and its lower-cased form, in substitution order. -/
def blockMathZeroOtherVariants : List Chars :=
  [ "_block_math_0_".data, "_ block_math_0 _".data,
    "\x7bblock_math_0\x7d".data, "__ block_math _ 0 __".data,
    "__block_math0__".data, "__block_math-0__".data,
    "__ _block_math_0__".data, "___ block_math_0__".data,
    "__ block_math_0__".data ]

/-! ### `protect_special_elements` (src/main.py lines 309-394) -/

/-- ``` ```.*?\n(.*?)``` ``` with `re.DOTALL` at head: the capture is the
fenced body after the first newline. -/
def matchCodeBlock (s : Chars) : Option (Nat × Chars) :=
  if "```".data.isPrefixOf s then
    let rest := s.drop 3
    match scanUpTo "\n".data false (rest.length + 1) rest with
    | some (hdr, rest2) =>
      match scanUpTo "```".data true (rest2.length + 1) rest2 with
      | some (code, _) => some (3 + hdr.length + 1 + code.length + 3, code)
      | none => none
    | none => none
  else none

/-- `` `([^`]+)` `` at head. -/
def matchInlineCode (s : Chars) : Option (Nat × Chars) :=
  if "`".data.isPrefixOf s then
    match scanUpTo "`".data true ((s.drop 1).length + 1) (s.drop 1) with
    | some (inner, _) => if inner = [] then none else some (inner.length + 2, inner)
    | none => none
  else none

/-- `<([^>]+)>` at head. -/
def matchHtmlTag (s : Chars) : Option (Nat × Chars) :=
  if "<".data.isPrefixOf s then
    match scanUpTo ">".data true ((s.drop 1).length + 1) (s.drop 1) with
    | some (inner, _) => if inner = [] then none else some (inner.length + 2, inner)
    | none => none
  else none

/-- `!\[((?:(?!\]\().)+?)\]\(((?:(?!\)).)+?)\)` at head: a titled image.
The tempered lazy dots stop at the first `](` (resp. `)`) and cannot cross
a newline. -/
def matchTitledImage (s : Chars) : Option (Nat × (Chars × Chars)) :=
  if "![".data.isPrefixOf s then
    match scanUpTo "](".data false ((s.drop 2).length + 1) (s.drop 2) with
    | some (title, rest) =>
      if title = [] then none
      else
        match scanUpTo ")".data false (rest.length + 1) rest with
        | some (url, _) =>
          if url = [] then none
          else some (2 + title.length + 2 + url.length + 1, (title, url))
        | none => none
    | none => none
  else none

/-- `!\[\]\(((?:(?!\)).)+?)\)` at head: an untitled image. -/
def matchUntitledImage (s : Chars) : Option (Nat × Chars) :=
  if "![](".data.isPrefixOf s then
    match scanUpTo ")".data false ((s.drop 4).length + 1) (s.drop 4) with
    | some (url, _) => if url = [] then none else some (4 + url.length + 1, url)
    | none => none
  else none

/-- `\[((?:(?!\]\().)+?)\]\(((?:(?!\)).)+?)\)` at head: a hyperlink. -/
def matchLink (s : Chars) : Option (Nat × (Chars × Chars)) :=
  if "[".data.isPrefixOf s then
    match scanUpTo "](".data false ((s.drop 1).length + 1) (s.drop 1) with
    | some (title, rest) =>
      if title = [] then none
      else
        match scanUpTo ")".data false (rest.length + 1) rest with
        | some (url, _) =>
          if url = [] then none
          else some (1 + title.length + 2 + url.length + 1, (title, url))
        | none => none
    | none => none
  else none

/-- Code-block pass (src/main.py lines 327-332): the reconstructed
"```\n{code}```" is stored and replaced. -/
def protectCodeBlocks (te0 : Chars × Registry) : Chars × Registry :=
  (reFindall matchCodeBlock te0.1).enum.foldl (fun (te : Chars × Registry) ic =>
    let ph := placeholderOf "CODE_BLOCK".data ic.1
    let recon := "```\n".data ++ ic.2 ++ "```".data
    (pyReplace1 te.1 recon ph, alistSet te.2 ph (.str recon))) te0

/-- Inline-code pass (src/main.py lines 335-340). -/
def protectInlineCode (te0 : Chars × Registry) : Chars × Registry :=
  (reFindall matchInlineCode te0.1).enum.foldl (fun (te : Chars × Registry) ic =>
    let ph := placeholderOf "INLINE_CODE".data ic.1
    let recon := "`".data ++ ic.2 ++ "`".data
    (pyReplace1 te.1 recon ph, alistSet te.2 ph (.str recon))) te0

/-- HTML-tag pass (src/main.py lines 343-348). -/
def protectHtmlTags (te0 : Chars × Registry) : Chars × Registry :=
  (reFindall matchHtmlTag te0.1).enum.foldl (fun (te : Chars × Registry) ic =>
    let ph := placeholderOf "HTML_TAG".data ic.1
    let recon := "<".data ++ ic.2 ++ ">".data
    (pyReplace1 te.1 recon ph, alistSet te.2 ph (.str recon))) te0

/-- Image pass (src/main.py lines 350-380): both findall passes run on the
same text, before either replacement loop; the collected image list is
stored under the distinguished key. -/
def protectImages (te0 : Chars × Registry) : Chars × Registry :=
  let titled := reFindall matchTitledImage te0.1
  let untitled := reFindall matchUntitledImage te0.1
  let st5 := titled.enum.foldl
    (fun (ta : (Chars × Registry) × List ImageInfo) itu =>
      if itu.2.1 ≠ [] then
        let ph := placeholderOf "IMAGE_LINK_TITLED".data itu.1
        let orig := mdImageT itu.2.1 itu.2.2
        ((pyReplace1 ta.1.1 orig ph, alistSet ta.1.2 ph (.str orig)),
          ta.2 ++ [⟨true, itu.2.1, itu.2.2, ph⟩])
      else ta) (te0, [])
  let st6 := untitled.enum.foldl
    (fun (ta : (Chars × Registry) × List ImageInfo) iu =>
      let ph := placeholderOf "IMAGE_LINK".data iu.1
      let orig := mdImageU iu.2
      ((pyReplace1 ta.1.1 orig ph, alistSet ta.1.2 ph (.str orig)),
        ta.2 ++ [⟨false, [], iu.2, ph⟩])) st5
  (st6.1.1, alistSet st6.1.2 "__ALL_IMAGE_PATHS__".data (.imgs st6.2))

/-- Hyperlink pass (src/main.py lines 383-392): spans whose "!"-prefixed
form is a registered value are skipped. -/
def protectLinks (te0 : Chars × Registry) : Chars × Registry :=
  (reFindall matchLink te0.1).enum.foldl (fun (te : Chars × Registry) itu =>
    let orig := "[".data ++ itu.2.1 ++ "](".data ++ itu.2.2 ++ ")".data
    if valueRegistered te.2 ("!".data ++ orig) then te
    else
      let ph := placeholderOf "LINK".data itu.1
      (pyReplace1 te.1 orig ph, alistSet te.2 ph (.str orig))) te0

/-- Drop the threaded math counter when `protect_formulas` hands its pair
back to the caller (src/main.py line 325 keeps only text and registry). -/
def dropCounter (st : Chars × Registry × Nat) : Chars × Registry :=
  (st.1, st.2.1)

def protect_special_elements (text0 : Chars) : Chars × Registry :=
  protectLinks (protectImages (protectHtmlTags (protectInlineCode (protectCodeBlocks
    (dropCounter (protect_formulas text0 [] 0))))))

/-! ### `restore_special_elements` (src/main.py lines 397-605) -/

/-- The four `pattern_variations` shapes (src/main.py lines 425-430) as
(prefix, suffix) pairs around `([A-Za-z_]+)_(\d+)`. -/
def pattern_variations : List (Chars × Chars) :=
  [ ("__".data, "__".data),
    ("_".data, "_".data),
    ("_ ".data, " _".data),
    ("\x7b".data, "\x7d".data) ]

/-- Matches `pre([A-Za-z_]+)_(\d+)suf` at the head of `s`; as in
`matchTypeNum`, the greedy name class must give back exactly one `_` before
the digit run.  Returns (consumed, name, digits). -/
def matchVarShape (pre suf : Chars) (s : Chars) : Option (Nat × Chars × Chars) :=
  if pre.isPrefixOf s then
    let rest := s.drop pre.length
    let run := rest.takeWhile (fun c => c.isAlpha || c = '_')
    let rest2 := rest.drop run.length
    let ds := rest2.takeWhile Char.isDigit
    let rest3 := rest2.drop ds.length
    if run.length ≥ 2 && run.getLast? = some '_' && ds ≠ [] && suf.isPrefixOf rest3 then
      some (pre.length + run.length + ds.length + suf.length, run.dropLast, ds)
    else none
  else none

/-- `!\[(.*?)\]\((.*?)\)` at head: both lazy groups may be empty and cannot
cross a newline.  Returns (consumed, alt, url). -/
def matchMdImage (s : Chars) : Option (Nat × Chars × Chars) :=
  if "![".data.isPrefixOf s then
    match scanUpTo "](".data false ((s.drop 2).length + 1) (s.drop 2) with
    | some (alt, rest) =>
      match scanUpTo ")".data false (rest.length + 1) rest with
      | some (url, _) => some (2 + alt.length + 2 + url.length + 1, alt, url)
      | none => none
    | none => none
  else none

/-- Path repair of `fix_image_path_in_markdown` (src/main.py lines 485-504). -/
def fixImagePath (path0 : Chars) : Chars :=
  let path :=
    if "__".data.isPrefixOf path0 then
      pyReplace (pyReplace path0 "__ ".data []) "__".data []
    else if "_ ".data.isPrefixOf path0 then pyReplace path0 "_ ".data []
    else if "_".data.isPrefixOf path0 then pyReplace path0 "_".data []
    else path0
  if strContains path "_ images/".data || strContains path "__images/".data ||
      strContains path "__ images/".data then
    let path := pyReplace path "_ images/".data "images/".data
    let path := pyReplace path "__images/".data "images/".data
    pyReplace path "__ images/".data "images/".data
  else path

/-- `placeholder.split('_')[-2]` (the buggy index of src/main.py lines
522-527 and 534-539: for `__IMAGE_LINK_0__` the parts are
`['', '', 'IMAGE', 'LINK', '0', '', '']`, so `[-2]` is the empty string,
not the number). -/
def splitIdx (ph : Chars) : Chars :=
  ((splitOnC '_' ph).reverse.drop 1).headD []

/-- The 18 `image_link_patterns` (src/main.py lines 546-565) as
(prefix, suffix) pairs around `(\d+)`, all matched with `re.IGNORECASE`. -/
def image_link_patterns : List (Chars × Chars) :=
  [ ("__IMAGE_LINK_TITLED_".data, "__".data),
    ("__IMAGE_LINK_".data, "__".data),
    ("_IMAGE_LINK_TITLED_".data, "_".data),
    ("_IMAGE_LINK_".data, "_".data),
    ("_ IMAGE_LINK_TITLED_".data, " _".data),
    ("_ IMAGE_LINK_".data, " _".data),
    ("__image_link_titled_".data, "__".data),
    ("__image_link_".data, "__".data),
    ("_image_link_titled_".data, "_".data),
    ("_image_link_".data, "_".data),
    ("image_link_titled_".data, []),
    ("image_link_".data, []),
    ("IMAGE_LINK_TITLED_".data, []),
    ("IMAGE_LINK_".data, []),
    ("image link titled ".data, []),
    ("image link ".data, []),
    ("imagelinktitled".data, []),
    ("imagelink".data, []) ]

def insSorted (x : Nat × Chars) : List (Nat × Chars) → List (Nat × Chars)
  | [] => [x]
  | y :: ys => if y.1 ≤ x.1 then y :: insSorted x ys else x :: y :: ys

/-- Python's stable `list.sort(key=lambda x: x[0])`. -/
def stableSortNum (l : List (Nat × Chars)) : List (Nat × Chars) :=
  l.foldl (fun acc x => insSorted x acc) []

def isHashChar (c : Char) : Bool := c = '#' || c = '＃'

/-- One line of `re.sub(r'^([#＃]+)(.*?)$', fix_heading_format, text,
flags=re.MULTILINE)` (src/main.py lines 588-603 and 620-635): the pattern
can never cross a newline, so the whole sub is a per-line rewrite.  The
greedy hash group takes every leading hash-like marker; the replacement
uses only ASCII `#` and prepends one space when the content does not
already start with one. -/
def fixHeadingLine (l : Chars) : Chars :=
  let hashes := l.takeWhile isHashChar
  if hashes = [] then l
  else
    let content := l.drop hashes.length
    List.replicate hashes.length '#' ++
      (if content.head? = some ' ' then content else ' ' :: content)

def fixHeadings (t : Chars) : Chars :=
  List.intercalate ['\n'] ((splitOnC '\n' t).map fixHeadingLine)

/-- The `all_variations_map` of `restore_special_elements` (src/main.py
lines 432-462): same variant table as tier 1 of `restore_formulas`, but for
every dunder key and bound to raw originals.
(The `lowercase_map` of lines 413-422 is built but never read; omitted.) -/
def allVariationsMap (elems : Registry) : List (Chars × Chars) :=
  elems.foldl (fun m kv =>
    if !(isDunder kv.1) then m
    else if kv.1 = "__ALL_IMAGE_PATHS__".data then m
    else
      match kv.2 with
      | .str orig =>
        let m := alistSet m kv.1 orig
        let m := alistSet m (pyLower kv.1) orig
        match matchTypeNum kv.1 with
        | some (tn, num) =>
          ((placeholderVariants kv.1 tn num).drop 2).foldl
            (fun m v => alistSet m v orig) m
        | none => m
      | .imgs _ => m   -- unreachable: only the skipped key holds the list
    ) []

/-- The four `pattern_variations` subs (src/main.py lines 464-470):
canonicalise each placeholder-shaped match and look it up, defaulting to
the match itself. -/
def patternVariationsSub (avm : List (Chars × Chars)) (t0 : Chars) : Chars :=
  pattern_variations.foldl (fun t ps =>
    reSub (fun s => (matchVarShape ps.1 ps.2 s).map (fun m =>
      let key := "__".data ++ m.2.1 ++ "_".data ++ m.2.2 ++ "__".data
      (m.1, (alistGet? avm key).getD (s.take m.1)))) t) t0

/-- Direct variant substitution (src/main.py lines 472-474), raw originals. -/
def directVariantsSub (avm : List (Chars × Chars)) (t0 : Chars) : Chars :=
  avm.foldl (fun t vo => pyReplace t vo.1 vo.2) t0

/-- Full-width punctuation repair (src/main.py lines 477-481): four
unconditional global replaces; line 479 is a no-op kept verbatim. -/
def fullwidthPunctRepair (t : Chars) : Chars :=
  pyReplace (pyReplace (pyReplace (pyReplace t
    "！[".data "![".data) "](".data "](".data) "）".data ")".data) "（".data "(".data

/-- Image-path repair sub (src/main.py lines 485-507). -/
def imagePathRepairSub (t : Chars) : Chars :=
  reSub (fun s => (matchMdImage s).map (fun m =>
    (m.1, "![".data ++ m.2.1 ++ "](".data ++ fixImagePath m.2.2 ++ ")".data))) t

/-- Image placeholder recovery (src/main.py lines 509-585). -/
def imagePlaceholderRecovery (elems : Registry) (text : Chars) : Chars :=
  match alistGet? elems "__ALL_IMAGE_PATHS__".data with
    | some (.imgs aip) =>
      let ipm : List (Chars × Chars) := aip.foldl (fun m info =>
        let idx := splitIdx info.ph
        if info.hasTitle then
          let orig := mdImageT info.title info.url
          let m := alistSet m info.ph orig
          let m := alistSet m (pyLower info.ph) orig
          let m := alistSet m (pyReplace info.ph "__".data "_".data) orig
          let m := alistSet m (pyReplace info.ph "__".data "_ ".data) orig
          let m := alistSet m ("image_link_titled_".data ++ idx) orig
          let m := alistSet m ("IMAGE_LINK_TITLED_".data ++ idx) orig
          let m := alistSet m (pyStrip ("image_link_titled_".data ++ idx)) orig
          let m := alistSet m (pyStrip ("image link titled ".data ++ idx)) orig
          alistSet m (pyStrip ("imagelinktitled".data ++ idx)) orig
        else
          let orig := mdImageU info.url
          let m := alistSet m info.ph orig
          let m := alistSet m (pyLower info.ph) orig
          let m := alistSet m (pyReplace info.ph "__".data "_".data) orig
          let m := alistSet m (pyReplace info.ph "__".data "_ ".data) orig
          let m := alistSet m ("image_link_".data ++ idx) orig
          let m := alistSet m ("IMAGE_LINK_".data ++ idx) orig
          let m := alistSet m (pyStrip ("image_link_".data ++ idx)) orig
          let m := alistSet m (pyStrip ("image link ".data ++ idx)) orig
          alistSet m (pyStrip ("imagelink".data ++ idx)) orig) []
      let text := ipm.foldl (fun t po => pyReplace t po.1 po.2) text
      -- remaining image-shaped residue (lines 545-585): every pattern's
      -- digit groups are re-found as literal occurrences, then the pairs
      -- are stably sorted by number and assigned positionally
      let remaining : List (Nat × Chars) := image_link_patterns.foldl (fun acc ps =>
        (reFindall (fun s => matchPreNumSuf true ps.1 ps.2 s) text).foldl (fun acc d =>
          let lit := ps.1 ++ d ++ ps.2
          acc ++ (reFindall (fun s =>
            if ciHasPre lit s then some (lit.length, s.take lit.length) else none)
            text).map (fun fm => (digitsToNat d, fm))) acc) []
      if remaining ≠ [] then
        (stableSortNum remaining).enum.foldl (fun t ip =>
          if ip.1 < aip.length then
            pyReplace t ip.2.2 (imageMd (aip.getD ip.1 ⟨false, [], [], []⟩))
          else t) text
      else text
    | _ => text

/-- `restore_special_elements` (src/main.py lines 397-605): formula
recovery, then the variant substitutions, the unconditional full-width
punctuation repair, the image-path repair, the image placeholder recovery,
and finally the heading repair (lines 588-603). -/
def restore_special_elements (text0 : Chars) (elems : Registry) : Chars :=
  fixHeadings
    (imagePlaceholderRecovery elems
      (imagePathRepairSub
        (fullwidthPunctRepair
          (directVariantsSub (allVariationsMap elems)
            (patternVariationsSub (allVariationsMap elems)
              (restore_formulas text0 elems))))))

/-! ### `fix_markdown_format` (src/main.py lines 608-691) -/

/-- `fix_image_link` replacement (src/main.py lines 638-647): both branches
rebuild exactly the matched text. -/
def fixImageLinkRep (alt url : Chars) : Chars :=
  if alt = [] && url ≠ [] then "![](".data ++ url ++ ")".data
  else "![".data ++ alt ++ "](".data ++ url ++ ")".data

/-- The 8 alternatives of the combined image-placeholder pattern
(src/main.py line 657 and lines 982-991), in alternation order. -/
def combinedImagePats : List Chars :=
  [ "image_link_".data, "IMAGE_LINK_".data, "image_link_titled_".data,
    "IMAGE_LINK_TITLED_".data, "image link ".data, "image link titled ".data,
    "imagelink".data, "imagelinktitled".data ]

/-- Head match of the combined alternation with `re.IGNORECASE`: the first
alternative that matches wins; the capture is the whole match. -/
def matchCombinedImagePh (s : Chars) : Option (Nat × Chars) :=
  combinedImagePats.findSome? (fun pre =>
    (matchPreNumSuf true pre [] s).map (fun pr => (pr.1, s.take pr.1)))

/-- The six residual patterns of src/main.py lines 671-673. -/
def residualImagePats : List (Chars × Chars) :=
  [ ("__IMAGE_LINK_".data, "__".data),
    ("__IMAGE_LINK_TITLED_".data, "__".data),
    ("image_link_".data, []),
    ("image_link_titled_".data, []),
    ("IMAGE_LINK_".data, []),
    ("IMAGE_LINK_TITLED_".data, []) ]

/-- `re.search(r'(\d+)', s)`: the first digit run. -/
def firstDigitRun : Chars → Option Chars
  | [] => none
  | c :: cs =>
    if c.isDigit then some ((c :: cs).takeWhile Char.isDigit)
    else firstDigitRun cs

def fix_markdown_format (text0 : Chars) (specialElements : Option Registry) : Chars :=
  -- heading repair (lines 620-635)
  let t := fixHeadings text0
  -- image-link normalisation (lines 638-650): rebuilds each match verbatim
  let t := reSub (fun s => (matchMdImage s).map (fun m =>
    (m.1, fixImageLinkRep m.2.1 m.2.2))) t
  -- image placeholder passes (lines 653-689); `if special_elements and ...`
  match specialElements with
  | none => t
  | some elems =>
    match alistGet? elems "__ALL_IMAGE_PATHS__".data with
    | some (.imgs aip) =>
      -- positional pass over every image-shaped token (lines 656-667)
      let phs := reFindall matchCombinedImagePh t
      let t := phs.enum.foldl (fun t ip =>
        if ip.1 < aip.length then
          pyReplace t ip.2 (imageMd (aip.getD ip.1 ⟨false, [], [], []⟩))
        else t) t
      -- index-based residual pass (lines 669-689)
      let rem := residualImagePats.foldl (fun acc ps =>
        acc ++ (reFindall (fun s => (matchPreNumSuf true ps.1 ps.2 s).map
          (fun pr => (pr.1, s.take pr.1))) t)) []
      rem.foldl (fun t ph =>
        match firstDigitRun ph with
        | some d =>
          if digitsToNat d < aip.length then
            pyReplace t ph (imageMd (aip.getD (digitsToNat d) ⟨false, [], [], []⟩))
          else t
        | none => t) t
    | _ => t

/-! ### `translate_markdown`, same-language path (src/main.py lines 694-1013) -/

/-- `re.split(r'\n\n+', text)`: split on maximal runs of two or more
newlines. -/
def reSplitBlankAux : Nat → Chars → Chars → List Chars
  | 0, acc, s => [acc.reverse ++ s]
  | fuel + 1, acc, s =>
    if "\n\n".data.isPrefixOf s then
      acc.reverse :: reSplitBlankAux fuel [] ((s.drop 2).dropWhile (· = '\n'))
    else
      match s with
      | [] => [acc.reverse]
      | c :: cs => reSplitBlankAux fuel (c :: acc) cs

def reSplitBlank (s : Chars) : List Chars := reSplitBlankAux (s.length + 1) [] s

/-- `f"{paragraph}_{lang_in}_{lang_out}_{service}"`. -/
def cacheKey (p li lo svc : Chars) : Chars :=
  p ++ "_".data ++ li ++ "_".data ++ lo ++ "_".data ++ svc

/-- `translate_markdown` specialised to its `lang_in == lang_out` branch
(src/main.py lines 722-777 and 969-1013): the Opaque Transform is skipped;
each non-empty, non-cached unit is protected, passed through
`restore_formulas` only (lines 765-777 never call
`restore_special_elements`), cached and emitted; the joined result then
receives `fix_markdown_format` and the final image-placeholder sweep.  The
cache contents loaded from disk at startup are abstracted as `cache0`; no
network service is invoked on this path. -/
def translateMarkdownSameLang (text li lo svc : Chars)
    (cache0 : List (Chars × Chars)) : Chars :=
  let paras := reSplitBlank text
  let st := paras.foldl
    (fun (st : List Chars × Registry × List (Chars × Chars)) p =>
      if pyStrip p = [] then (st.1 ++ [p], st.2)
      else
        let key := cacheKey p li lo svc
        let hit := match alistGet? st.2.2 key with
          | some c => if c = [] then none else some c   -- '' is falsy
          | none => none
        match hit with
        | some c => (st.1 ++ [c], st.2)
        | none =>
          let pr := protect_special_elements p
          let allSE := pr.2.foldl (fun a kv => alistSet a kv.1 kv.2) st.2.1
          let restored := restore_formulas pr.1 pr.2
          (st.1 ++ [restored], allSE, alistSet st.2.2 key restored))
    ([], [], cache0)
  let result := List.intercalate "\n\n".data st.1
  let result := fix_markdown_format result (some st.2.1)
  -- final image sweep (lines 977-1010)
  match alistGet? st.2.1 "__ALL_IMAGE_PATHS__".data with
  | some (.imgs aip) =>
    (reFindall matchCombinedImagePh result).foldl (fun r ph =>
      match firstDigitRun ph with
      | some d =>
        if digitsToNat d < aip.length then
          pyReplace r ph (imageMd (aip.getD (digitsToNat d) ⟨false, [], [], []⟩))
        else r
      | none => r) result
  | _ => result

/-! ### `TranslationCache` (src/main.py lines 242-306) -/

/-- `TranslationCache` with `cache_file = None`: `_load_cache` and
`_save_cache` return immediately, so the object is a pure in-memory
insertion-ordered dict. -/
structure TranslationCache where
  cache : List (Chars × Chars)

/-- `self.cache.get(key, default)` with the absent default `None`. -/
def TranslationCache.get (tc : TranslationCache) (key : Chars) : Option Chars :=
  alistGet? tc.cache key

/-- `self.cache[key] = value` followed by the no-op `_save_cache`. -/
def TranslationCache.set (tc : TranslationCache) (key value : Chars) :
    TranslationCache :=
  ⟨alistSet tc.cache key value⟩

/-- `self.cache = {}` followed by the no-op `_save_cache`. -/
def TranslationCache.clear (_ : TranslationCache) : TranslationCache := ⟨[]⟩

/-! ### Derived pipeline compositions used by the theorems -/

/-- Protect, then recover with the identity Opaque Transform in between
(the per-unit recovery path of lines 954-960). -/
def protectRestoreRoundTrip (t : Chars) : Chars :=
  restore_special_elements (protect_special_elements t).1 (protect_special_elements t).2

/-- The identity round trip followed by the document-level repair pass
(line 975). -/
def protectRestoreRepairRoundTrip (t : Chars) : Chars :=
  fix_markdown_format (protectRestoreRoundTrip t) (some (protect_special_elements t).2)

/-- The numeric component `N` of a canonical `__<KIND>_<N>__` placeholder. -/
def placeholderNum (p : Chars) : Option Nat :=
  (matchTypeNum p).map (fun tn => digitsToNat tn.2)

/-! ## Supporting lemmas -/

theorem scanUpTo_spec (delim : Chars) (nlOk : Bool) :
    ∀ fuel s p r, scanUpTo delim nlOk fuel s = some (p, r) → s = p ++ delim ++ r := by
  intro fuel
  induction fuel with
  | zero => intro s p r h; rw [scanUpTo.eq_1] at h; cases h
  | succ k ih =>
    intro s p r h
    match s with
    | [] =>
      rw [scanUpTo.eq_2] at h
      split at h
      · next hd =>
        simp only [Option.some.injEq, Prod.mk.injEq] at h
        obtain ⟨hp, hr⟩ := h
        subst hp; subst hr
        have hpre := List.prefix_iff_eq_append.mp (List.isPrefixOf_iff_prefix.mp hd)
        simp only [List.nil_append]
        exact hpre.symm
      · cases h
    | c :: cs =>
      rw [scanUpTo.eq_3] at h
      split at h
      · next hd =>
        simp only [Option.some.injEq, Prod.mk.injEq] at h
        obtain ⟨hp, hr⟩ := h
        subst hp; subst hr
        have hpre := List.prefix_iff_eq_append.mp (List.isPrefixOf_iff_prefix.mp hd)
        simp only [List.nil_append]
        exact hpre.symm
      · split at h
        · cases h
        · cases hs : scanUpTo delim nlOk k cs with
          | none => rw [hs] at h; cases h
          | some pr =>
            rw [hs] at h
            obtain ⟨p', r'⟩ := pr
            simp only [Option.map_some', Option.some.injEq, Prod.mk.injEq] at h
            obtain ⟨hp, hr⟩ := h
            have hcs := ih cs p' r' hs
            subst hp
            subst hr
            simp [hcs]

theorem matchMdImage_spec (s : Chars) (n : Nat) (alt url : Chars)
    (h : matchMdImage s = some (n, alt, url)) :
    s.take n = "![".data ++ alt ++ "](".data ++ url ++ ")".data := by
  unfold matchMdImage at h
  split at h
  · next hd =>
    cases h1 : scanUpTo "](".data false ((s.drop 2).length + 1) (s.drop 2) with
    | none => rw [h1] at h; cases h
    | some pr =>
      rw [h1] at h
      obtain ⟨a, rest⟩ := pr
      simp only at h
      cases h2 : scanUpTo ")".data false (rest.length + 1) rest with
      | none => rw [h2] at h; cases h
      | some pr2 =>
        rw [h2] at h
        obtain ⟨u, rest2⟩ := pr2
        simp only [Option.some.injEq, Prod.mk.injEq] at h
        obtain ⟨hn, ha, hu⟩ := h
        rw [← ha, ← hu, ← hn]
        have e1 := scanUpTo_spec _ _ _ _ _ _ h1
        have e2 := scanUpTo_spec _ _ _ _ _ _ h2
        have hs2 : s = "![".data ++ s.drop 2 := by
          have hp := List.prefix_iff_eq_append.mp (List.isPrefixOf_iff_prefix.mp hd)
          have hl : ("![".data).length = 2 := by decide
          rw [hl] at hp
          exact hp.symm
        have hsfull : s = ("![".data ++ a ++ "](".data ++ u ++ ")".data) ++ rest2 := by
          conv_lhs => rw [hs2, e1, e2]
          simp
        have hlen : ("![".data ++ a ++ "](".data ++ u ++ ")".data).length
            = 2 + a.length + 2 + u.length + 1 := by
          have l1 : ("![".data).length = 2 := by decide
          have l2 : ("](".data).length = 2 := by decide
          have l3 : (")".data).length = 1 := by decide
          simp only [List.length_append, l1, l2, l3]
        rw [hsfull, List.take_left' hlen]
  · cases h

theorem fixImageLinkRep_take (s : Chars) (n : Nat) (alt url : Chars)
    (h : matchMdImage s = some (n, alt, url)) :
    fixImageLinkRep alt url = s.take n := by
  rw [matchMdImage_spec s n alt url h]
  unfold fixImageLinkRep
  split
  · next hcond =>
    have ha : alt = [] := by
      simp only [Bool.and_eq_true, decide_eq_true_eq] at hcond
      exact hcond.1
    subst ha
    have : "![](".data = "![".data ++ "](".data := by decide
    simp [this]
  · rfl

theorem reSubAux_id (m : Chars → Option (Nat × Chars))
    (hm : ∀ s n rep, m s = some (n, rep) → rep = s.take n) :
    ∀ fuel s, reSubAux m fuel s = s := by
  intro fuel
  induction fuel with
  | zero => intro s; rfl
  | succ k ih =>
    intro s
    match s with
    | [] => rfl
    | c :: cs =>
      rw [reSubAux]
      cases hmc : m (c :: cs) with
      | none => rw [ih]
      | some nr =>
        obtain ⟨n, rep⟩ := nr
        have hrep := hm _ _ _ hmc
        subst hrep
        by_cases hn : n = 0
        · subst hn; simp [ih]
        · simp only [if_neg hn, ih]
          exact List.take_append_drop n (c :: cs)

/-- The `fix_image_link` substitution of `fix_markdown_format` rebuilds
every match verbatim, so the whole pass is the identity. -/
theorem imageLinkSub_id (t : Chars) :
    reSub (fun s => (matchMdImage s).map (fun m =>
      (m.1, fixImageLinkRep m.2.1 m.2.2))) t = t := by
  unfold reSub
  apply reSubAux_id
  intro s n rep h
  cases hmi : matchMdImage s with
  | none => rw [hmi] at h; cases h
  | some m =>
    rw [hmi] at h
    obtain ⟨n', alt, url⟩ := m
    simp only [Option.map_some', Option.some.injEq, Prod.mk.injEq] at h
    obtain ⟨hn, hrep⟩ := h
    subst hn
    rw [← hrep]
    exact fixImageLinkRep_take s n' alt url hmi

theorem takeWhile_app (p : Char → Bool) :
    ∀ (hs rest : Chars), (∀ c ∈ hs, p c = true) →
      (∀ c, rest.head? = some c → p c = false) →
      (hs ++ rest).takeWhile p = hs := by
  intro hs
  induction hs with
  | nil =>
    intro rest _ h2
    match rest with
    | [] => rfl
    | c :: cs => simp only [List.nil_append, List.takeWhile_cons, h2 c rfl]; rfl
  | cons h t ih =>
    intro rest h1 h2
    rw [List.cons_append, List.takeWhile_cons, if_pos (h1 h (List.mem_cons_self h t))]
    rw [ih rest (fun c hc => h1 c (List.mem_cons_of_mem _ hc)) h2]

theorem splitOnC_single (sep : Char) :
    ∀ l : Chars, (∀ c ∈ l, c ≠ sep) → splitOnC sep l = [l] := by
  intro l
  induction l with
  | nil => intro _; rfl
  | cons c cs ih =>
    intro h
    have hc : c ≠ sep := h c (List.mem_cons_self c cs)
    rw [splitOnC]
    rw [if_neg hc]
    rw [ih (fun x hx => h x (List.mem_cons_of_mem _ hx))]

theorem intercalate_single (s x : Chars) : List.intercalate s [x] = x := by
  simp [List.intercalate]

theorem fixHeadings_single_line (l : Chars) (h : ∀ c ∈ l, c ≠ '\n') :
    fixHeadings l = fixHeadingLine l := by
  unfold fixHeadings
  rw [splitOnC_single '\n' l h]
  simp only [List.map_cons, List.map_nil]
  exact intercalate_single _ _

theorem alistGet?_alistSet {α : Type} :
    ∀ (l : List (Chars × α)) (k : Chars) (v : α),
      alistGet? (alistSet l k v) k = some v := by
  intro l k v
  induction l with
  | nil => simp [alistSet, alistGet?]
  | cons kv rest ih =>
    obtain ⟨k', v'⟩ := kv
    rw [alistSet]
    by_cases h : k' = k
    · rw [if_pos h, alistGet?, if_pos h]
    · rw [if_neg h, alistGet?, if_neg h, ih]

/-! ## Claim theorems -/

theorem foldl_id_of_mem {α β : Type} (f : α → β → α) :
    ∀ (l : List β) (t : α), (∀ b ∈ l, f t b = t) → l.foldl f t = t := by
  intro l
  induction l with
  | nil => intro t _; rfl
  | cons b bs ih =>
    intro t h
    rw [List.foldl_cons, h b (List.mem_cons_self b bs)]
    exact ih t (fun x hx => h x (List.mem_cons_of_mem _ hx))

theorem foldl_preserve {α β : Type} (P : α → Prop) (f : α → β → α)
    (hf : ∀ st b, P st → P (f st b)) :
    ∀ (l : List β) (st : α), P st → P (l.foldl f st) := by
  intro l
  induction l with
  | nil => intro st h; exact h
  | cons b bs ih =>
    intro st h
    rw [List.foldl_cons]
    exact ih _ (hf st b h)

theorem alistSet_mem_fst {α : Type} :
    ∀ (l : List (Chars × α)) (k : Chars) (v : α) (x : Chars),
      x ∈ (alistSet l k v).map Prod.fst → x ∈ l.map Prod.fst ∨ x = k := by
  intro l
  induction l with
  | nil =>
    intro k v x hx
    simp [alistSet] at hx
    exact Or.inr hx
  | cons kv rest ih =>
    intro k v x hx
    obtain ⟨k', v'⟩ := kv
    rw [alistSet] at hx
    by_cases h : k' = k
    · rw [if_pos h] at hx
      simp only [List.map_cons, List.mem_cons] at hx ⊢
      tauto
    · rw [if_neg h] at hx
      simp only [List.map_cons, List.mem_cons] at hx ⊢
      rcases hx with hx | hx
      · tauto
      · rcases ih k v x hx with h1 | h1 <;> tauto

theorem alistSet_keys_nodup {α : Type} :
    ∀ (l : List (Chars × α)) (k : Chars) (v : α),
      (l.map Prod.fst).Nodup → ((alistSet l k v).map Prod.fst).Nodup := by
  intro l
  induction l with
  | nil => intro k v _; simp [alistSet]
  | cons kv rest ih =>
    intro k v h
    obtain ⟨k', v'⟩ := kv
    simp only [List.map_cons, List.nodup_cons] at h
    rw [alistSet]
    by_cases hk : k' = k
    · rw [if_pos hk]
      simp only [List.map_cons, List.nodup_cons]
      exact h
    · rw [if_neg hk]
      simp only [List.map_cons, List.nodup_cons]
      refine ⟨fun hmem => ?_, ih k v h.2⟩
      rcases alistSet_mem_fst rest k v k' hmem with h1 | h1
      · exact h.1 h1
      · exact hk h1

theorem alistSet_map_snd (f : Chars → Chars) :
    ∀ (m : List (Chars × Chars)) (k v : Chars),
      alistSet (m.map (fun vo => (vo.1, f vo.2))) k (f v)
        = (alistSet m k v).map (fun vo => (vo.1, f vo.2)) := by
  intro m
  induction m with
  | nil => intro k v; rfl
  | cons kv rest ih =>
    intro k v
    obtain ⟨k', v'⟩ := kv
    simp only [List.map_cons, alistSet]
    by_cases h : k' = k
    · rw [if_pos h, if_pos h]
      rfl
    · rw [if_neg h, if_neg h]
      simp only [List.map_cons]
      rw [ih k v]

theorem foldl_alistSet_map (f : Chars → Chars) (o : Chars) :
    ∀ (vs : List Chars) (m : List (Chars × Chars)),
      vs.foldl (fun m v => alistSet m v (f o)) (m.map (fun vo => (vo.1, f vo.2)))
        = (vs.foldl (fun m v => alistSet m v o) m).map (fun vo => (vo.1, f vo.2)) := by
  intro vs
  induction vs with
  | nil => intro m; rfl
  | cons v vs ih =>
    intro m
    rw [List.foldl_cons, List.foldl_cons, alistSet_map_snd, ih]

theorem strContains_cons (c : Char) (cs pat : Chars) :
    strContains (c :: cs) pat = (pat.isPrefixOf (c :: cs) || strContains cs pat) := rfl

theorem pyReplace_nonempty (s pat rep : Chars) (h : pat ≠ []) :
    pyReplace s pat rep = replaceAllAux pat rep s.length s := by
  unfold pyReplace
  rw [if_neg h]

theorem replaceAllAux_self (pat : Chars) : ∀ fuel s, replaceAllAux pat pat fuel s = s := by
  intro fuel
  induction fuel with
  | zero => intro s; rfl
  | succ k ih =>
    intro s
    match s with
    | [] => rfl
    | c :: cs =>
      rw [replaceAllAux]
      by_cases h : pat.isPrefixOf (c :: cs)
      · rw [if_pos h, ih]
        exact List.prefix_iff_eq_append.mp (List.isPrefixOf_iff_prefix.mp h)
      · rw [if_neg h, ih]

theorem pyReplace_self (s pat : Chars) : pyReplace s pat pat = s := by
  unfold pyReplace
  split
  · rfl
  · exact replaceAllAux_self pat s.length s

theorem replaceAllAux_not_contains (pat rep : Chars) :
    ∀ fuel s, strContains s pat = false → replaceAllAux pat rep fuel s = s := by
  intro fuel
  induction fuel with
  | zero => intro s _; rfl
  | succ k ih =>
    intro s h
    match s with
    | [] => rfl
    | c :: cs =>
      rw [strContains_cons, Bool.or_eq_false_iff] at h
      rw [replaceAllAux, if_neg (by simp [h.1]), ih cs h.2]

theorem pyReplace_of_not_contains (s pat rep : Chars)
    (h : strContains s pat = false) : pyReplace s pat rep = s := by
  unfold pyReplace
  split
  · rfl
  · exact replaceAllAux_not_contains pat rep s.length s h

theorem replaceAllAux_singleton (a b : Char) :
    ∀ fuel (s : Chars), s.length ≤ fuel →
      replaceAllAux [a] [b] fuel s = s.map (fun c => if c = a then b else c) := by
  intro fuel
  induction fuel with
  | zero =>
    intro s h
    have : s = [] := List.eq_nil_of_length_eq_zero (Nat.le_zero.mp h)
    subst this
    rfl
  | succ k ih =>
    intro s h
    match s with
    | [] => rfl
    | c :: cs =>
      rw [replaceAllAux]
      by_cases hc : c = a
      · subst hc
        rw [if_pos (by simp [List.isPrefixOf])]
        simp only [List.map_cons, if_pos rfl]
        rw [show ([c] : Chars).length = 1 from rfl]
        rw [show (c :: cs).drop 1 = cs from rfl]
        rw [ih cs (by simpa using Nat.le_of_succ_le_succ h)]
        rfl
      · rw [if_neg (by simp [List.isPrefixOf]; intro hac; exact absurd hac.symm hc)]
        rw [ih cs (by simpa using Nat.le_of_succ_le_succ h)]
        simp [List.map_cons, hc]

theorem pyReplace_singleton (s : Chars) (a b : Char) :
    pyReplace s [a] [b] = s.map (fun c => if c = a then b else c) := by
  rw [pyReplace_nonempty _ _ _ (by simp)]
  exact replaceAllAux_singleton a b s.length s (le_refl _)

theorem strContains_map_single_absent (f : Char → Char) (x : Char)
    (hf : ∀ c, f c ≠ x) : ∀ s : Chars, strContains (s.map f) [x] = false := by
  intro s
  induction s with
  | nil => rfl
  | cons c cs ih =>
    rw [List.map_cons, strContains_cons, ih]
    simp only [List.isPrefixOf, Bool.and_true, Bool.or_false]
    rw [beq_eq_false_iff_ne]
    exact (hf c).symm

theorem strContains_map_single_preserve (f : Char → Char) (x : Char)
    (hf : ∀ c, f c = x → c = x) :
    ∀ s : Chars, strContains s [x] = false → strContains (s.map f) [x] = false := by
  intro s
  induction s with
  | nil => intro _; rfl
  | cons c cs ih =>
    intro h
    rw [strContains_cons, Bool.or_eq_false_iff] at h
    rw [List.map_cons, strContains_cons, Bool.or_eq_false_iff]
    refine ⟨?_, ih h.2⟩
    have h1 := h.1
    simp only [List.isPrefixOf, Bool.and_true] at h1 ⊢
    rw [beq_eq_false_iff_ne] at h1 ⊢
    intro he
    exact h1 ((hf c he.symm) ▸ rfl)

theorem strContains_map_pair_preserve (f : Char → Char) (a b : Char)
    (hfa : ∀ c, f c = a → c = a) (hfb : ∀ c, f c = b → c = b) :
    ∀ s : Chars, strContains s [a, b] = false → strContains (s.map f) [a, b] = false := by
  intro s
  induction s with
  | nil => intro _; rfl
  | cons c cs ih =>
    intro h
    rw [strContains_cons, Bool.or_eq_false_iff] at h
    rw [List.map_cons, strContains_cons, Bool.or_eq_false_iff]
    refine ⟨?_, ih h.2⟩
    have h1 := h.1
    cases cs with
    | nil => simp [List.isPrefixOf]
    | cons d ds =>
      simp only [List.isPrefixOf, Bool.and_true, List.map_cons] at h1 ⊢
      rw [Bool.and_eq_false_iff] at h1 ⊢
      rcases h1 with h1 | h1
      · left
        rw [beq_eq_false_iff_ne] at h1 ⊢
        intro he
        exact h1 ((hfa c he.symm) ▸ rfl)
      · right
        rw [beq_eq_false_iff_ne] at h1 ⊢
        intro he
        exact h1 ((hfb d he.symm) ▸ rfl)

theorem replaceFW_head : ∀ (fuel : Nat) (s : Chars),
    (replaceAllAux "！[".data "![".data fuel s).head? = s.head? ∨
    (replaceAllAux "！[".data "![".data fuel s).head? = some '!' := by
  intro fuel s
  match fuel, s with
  | 0, s => exact Or.inl rfl
  | fuel+1, [] => exact Or.inl rfl
  | fuel+1, c :: cs =>
    rw [replaceAllAux]
    by_cases h : ("！[".data).isPrefixOf (c :: cs)
    · rw [if_pos h]
      exact Or.inr rfl
    · rw [if_neg h]
      exact Or.inl rfl

theorem isPrefixOf_fw_cons (c : Char) (rest : Chars) (hc : c ≠ '！') :
    ("！[".data).isPrefixOf (c :: rest) = false := by
  show (['！', '['] : Chars).isPrefixOf (c :: rest) = false
  simp only [List.isPrefixOf]
  rw [Bool.and_eq_false_iff]
  left
  rw [beq_eq_false_iff_ne]
  exact fun h => hc h.symm

theorem isPrefixOf_fw_cons2 (c d : Char) (rest : Chars) (hd : d ≠ '[') :
    ("！[".data).isPrefixOf (c :: d :: rest) = false := by
  show (['！', '['] : Chars).isPrefixOf (c :: d :: rest) = false
  simp only [List.isPrefixOf, Bool.and_true]
  rw [Bool.and_eq_false_iff]
  right
  rw [beq_eq_false_iff_ne]
  exact fun h => hd h.symm

theorem isPrefixOf_fw_single (c : Char) : ("！[".data).isPrefixOf [c] = false := by
  show (['！', '['] : Chars).isPrefixOf [c] = false
  simp [List.isPrefixOf]

theorem replaceFW_no_occ : ∀ (fuel : Nat) (s : Chars), s.length ≤ fuel →
    strContains (replaceAllAux "！[".data "![".data fuel s) "！[".data = false := by
  intro fuel
  induction fuel with
  | zero =>
    intro s h
    have : s = [] := List.eq_nil_of_length_eq_zero (Nat.le_zero.mp h)
    subst this
    rfl
  | succ k ih =>
    intro s h
    match s with
    | [] => rfl
    | c :: cs =>
      rw [replaceAllAux]
      by_cases hp : ("！[".data).isPrefixOf (c :: cs)
      · rw [if_pos hp]
        have hlen : ((c :: cs).drop ("！[".data).length).length ≤ k := by
          simp only [List.length_cons, List.length_drop] at h ⊢
          omega
        have hR := ih _ hlen
        show strContains ('!' :: '[' :: replaceAllAux "！[".data "![".data k _) "！[".data = false
        rw [strContains_cons, strContains_cons, hR]
        rw [isPrefixOf_fw_cons '!' _ (by decide), isPrefixOf_fw_cons '[' _ (by decide)]
        rfl
      · rw [if_neg hp]
        have hR := ih cs (by simp only [List.length_cons] at h; omega)
        rw [strContains_cons, hR]
        simp only [Bool.or_false]
        by_cases hc : c = '！'
        · subst hc
          cases hRc : replaceAllAux "！[".data "![".data k cs with
          | nil => exact isPrefixOf_fw_single _
          | cons r rs =>
            have hr : r ≠ '[' := by
              rcases replaceFW_head k cs with hh | hh
              · rw [hRc] at hh
                cases cs with
                | nil => simp at hh
                | cons d ds =>
                  simp only [List.head?, Option.some.injEq] at hh
                  intro hrb
                  apply hp
                  rw [← hh, hrb]
                  show (['！', '['] : Chars).isPrefixOf ('！' :: '[' :: ds) = true
                  simp [List.isPrefixOf]
              · rw [hRc] at hh
                simp only [List.head?, Option.some.injEq] at hh
                rw [hh]
                decide
            exact isPrefixOf_fw_cons2 _ _ _ hr
        · exact isPrefixOf_fw_cons _ _ hc

theorem fullwidthPunctRepair_expand (t : Chars) :
    fullwidthPunctRepair t =
      ((pyReplace t "！[".data "![".data).map
          (fun c => if c = '）' then ')' else c)).map
        (fun c => if c = '（' then '(' else c) := by
  show pyReplace (pyReplace (pyReplace (pyReplace t
      "！[".data "![".data) "](".data "](".data) ['）'] [')']) ['（'] ['('] = _
  rw [pyReplace_self, pyReplace_singleton, pyReplace_singleton]

theorem replaceFW_clean (t : Chars) :
    strContains (pyReplace t "！[".data "![".data) "！[".data = false := by
  rw [pyReplace_nonempty _ _ _ (by simp)]
  exact replaceFW_no_occ t.length t (le_refl _)

theorem fullwidthPunctRepair_clean (t : Chars) :
    strContains (fullwidthPunctRepair t) "（".data = false ∧
    strContains (fullwidthPunctRepair t) "）".data = false ∧
    strContains (fullwidthPunctRepair t) "！[".data = false := by
  rw [fullwidthPunctRepair_expand]
  refine ⟨?_, ?_, ?_⟩
  · show strContains _ ['（'] = false
    apply strContains_map_single_absent
    intro c
    by_cases h : c = '（' <;> simp [h]
  · show strContains _ ['）'] = false
    apply strContains_map_single_preserve
    · intro c hc
      by_cases h : c = '（'
      · rw [if_pos h] at hc
        exact absurd hc (by decide)
      · rwa [if_neg h] at hc
    · apply strContains_map_single_absent
      intro c
      by_cases h : c = '）' <;> simp [h]
  · show strContains _ ['！', '['] = false
    apply strContains_map_pair_preserve
    · intro c hc
      by_cases h : c = '（'
      · rw [if_pos h] at hc
        exact absurd hc (by decide)
      · rwa [if_neg h] at hc
    · intro c hc
      by_cases h : c = '（'
      · rw [if_pos h] at hc
        exact absurd hc (by decide)
      · rwa [if_neg h] at hc
    · apply strContains_map_pair_preserve
      · intro c hc
        by_cases h : c = '）'
        · rw [if_pos h] at hc
          exact absurd hc (by decide)
        · rwa [if_neg h] at hc
      · intro c hc
        by_cases h : c = '）'
        · rw [if_pos h] at hc
          exact absurd hc (by decide)
        · rwa [if_neg h] at hc
      · exact replaceFW_clean t

theorem mathTier2_empty (t : Chars) : mathTier2 [] t = t := by
  unfold mathTier2
  apply foldl_id_of_mem
  intro ps _
  apply foldl_id_of_mem
  intro m _
  rfl

theorem restore_formulas_empty (t : Chars) : restore_formulas t [] = t := by
  show mathTier3 [] (mathTier2 [] (mathTier1 [] t)) = t
  rw [show mathTier1 [] t = t from rfl, mathTier2_empty]
  rfl

theorem patternVariationsSub_nil (t : Chars) : patternVariationsSub [] t = t := by
  unfold patternVariationsSub
  apply foldl_id_of_mem
  intro ps _
  unfold reSub
  apply reSubAux_id
  intro s n rep h
  cases hm : matchVarShape ps.1 ps.2 s with
  | none => rw [hm] at h; cases h
  | some m =>
    rw [hm] at h
    simp only [Option.map_some', Option.some.injEq, Prod.mk.injEq] at h
    obtain ⟨hn, hrep⟩ := h
    subst hn
    rw [← hrep]
    rfl

theorem restoreSE_empty_registry (t : Chars) :
    restore_special_elements t [] =
      fixHeadings (imagePathRepairSub (fullwidthPunctRepair t)) := by
  show fixHeadings
      (imagePlaceholderRecovery []
        (imagePathRepairSub
          (fullwidthPunctRepair
            (directVariantsSub (allVariationsMap [])
              (patternVariationsSub (allVariationsMap [])
                (restore_formulas t [])))))) = _
  rw [restore_formulas_empty]
  rw [show allVariationsMap [] = [] from rfl]
  rw [patternVariationsSub_nil]
  rfl

theorem mvmStep_normalize (m : List (Chars × Chars)) (kv : Chars × ElemVal) :
    mvmStep (m.map (fun vo => (vo.1, fix_formula_format vo.2))) (kv.1, normalizeVal kv.2)
      = (mvmStep m kv).map (fun vo => (vo.1, fix_formula_format vo.2)) := by
  cases hd : isDunder kv.1 with
  | false => simp [mvmStep, hd]
  | true =>
    cases htn : matchTypeNum kv.1 with
    | none => simp [mvmStep, hd, htn]
    | some tn =>
      obtain ⟨tname, num⟩ := tn
      cases hm : endsWithMATH tname with
      | false => simp [mvmStep, hd, htn, hm]
      | true =>
        cases hv : kv.2 with
        | str orig =>
          simp only [mvmStep, hd, htn, hm, hv, normalizeVal, Bool.not_true,
            Bool.false_eq_true, if_false]
          exact foldl_alistSet_map fix_formula_format orig _ m
        | imgs l =>
          simp [mvmStep, hd, htn, hm, hv, normalizeVal]

theorem mvm_normalize_aux :
    ∀ (elems : Registry) (m : List (Chars × Chars)),
      (normalizeRegistry elems).foldl mvmStep
          (m.map (fun vo => (vo.1, fix_formula_format vo.2)))
        = (elems.foldl mvmStep m).map (fun vo => (vo.1, fix_formula_format vo.2)) := by
  intro elems
  induction elems with
  | nil => intro m; rfl
  | cons kv rest ih =>
    intro m
    show (normalizeRegistry rest).foldl mvmStep
        (mvmStep (m.map _) (kv.1, normalizeVal kv.2)) = _
    rw [mvmStep_normalize m kv]
    exact ih (mvmStep m kv)

theorem mathVariationsMap_normalize (elems : Registry) :
    mathVariationsMap (normalizeRegistry elems)
      = (mathVariationsMap elems).map (fun vo => (vo.1, fix_formula_format vo.2)) := by
  have := mvm_normalize_aux elems []
  simpa using this

theorem mathTier1Raw_normalize (elems : Registry) (t : Chars) :
    mathTier1Raw (normalizeRegistry elems) t = mathTier1 elems t := by
  unfold mathTier1Raw mathTier1
  rw [mathVariationsMap_normalize, List.foldl_map]

theorem mathTier2SubstRaw_normalize : ∀ (elems : Registry) (t m : Chars),
    mathTier2SubstRaw (normalizeRegistry elems) t m = mathTier2Subst elems t m := by
  intro elems
  induction elems with
  | nil => intro t m; rfl
  | cons kv rest ih =>
    obtain ⟨k, v⟩ := kv
    intro t m
    by_cases hp : (isDunder k && containsMATHci k &&
        (strContains (pyLower m) (pyLower k) || strContains (pyLower k) (pyLower m))) = true
    · show (match ((k, normalizeVal v) :: normalizeRegistry rest).find? (fun kv =>
          isDunder kv.1 && containsMATHci kv.1 &&
          (strContains (pyLower m) (pyLower kv.1) || strContains (pyLower kv.1) (pyLower m))) with
        | some kv =>
          match kv.2 with
          | .str orig => pyReplace t m orig
          | .imgs _ => t
        | none => t)
        = match ((k, v) :: rest).find? (fun kv =>
          isDunder kv.1 && containsMATHci kv.1 &&
          (strContains (pyLower m) (pyLower kv.1) || strContains (pyLower kv.1) (pyLower m))) with
        | some kv =>
          match kv.2 with
          | .str orig => pyReplace t m (fix_formula_format orig)
          | .imgs _ => t
        | none => t
      rw [@List.find?_cons_of_pos (Chars × ElemVal) (fun kv : Chars × ElemVal => isDunder kv.1 && containsMATHci kv.1 && (strContains (pyLower m) (pyLower kv.1) || strContains (pyLower kv.1) (pyLower m))) (k, normalizeVal v) (normalizeRegistry rest) hp]
      rw [@List.find?_cons_of_pos (Chars × ElemVal) (fun kv : Chars × ElemVal => isDunder kv.1 && containsMATHci kv.1 && (strContains (pyLower m) (pyLower kv.1) || strContains (pyLower kv.1) (pyLower m))) (k, v) rest hp]
      cases v with
      | str orig => rfl
      | imgs l => rfl
    · show mathTier2SubstRaw ((k, normalizeVal v) :: normalizeRegistry rest) t m
        = mathTier2Subst ((k, v) :: rest) t m
      unfold mathTier2SubstRaw mathTier2Subst
      rw [@List.find?_cons_of_neg (Chars × ElemVal) (fun kv : Chars × ElemVal => isDunder kv.1 && containsMATHci kv.1 && (strContains (pyLower m) (pyLower kv.1) || strContains (pyLower kv.1) (pyLower m))) (k, normalizeVal v) (normalizeRegistry rest) hp]
      rw [@List.find?_cons_of_neg (Chars × ElemVal) (fun kv : Chars × ElemVal => isDunder kv.1 && containsMATHci kv.1 && (strContains (pyLower m) (pyLower kv.1) || strContains (pyLower kv.1) (pyLower m))) (k, v) rest hp]
      exact ih t m
theorem mathTier2Raw_normalize (elems : Registry) (t : Chars) :
    mathTier2Raw (normalizeRegistry elems) t = mathTier2 elems t := by
  unfold mathTier2Raw mathTier2
  have h : (fun (t m : Chars) => mathTier2SubstRaw (normalizeRegistry elems) t m)
      = fun t m => mathTier2Subst elems t m := by
    funext t m
    exact mathTier2SubstRaw_normalize elems t m
  rw [h]

theorem mathTier3Raw_normalize : ∀ (elems : Registry) (t : Chars),
    mathTier3Raw (normalizeRegistry elems) t = mathTier3 elems t := by
  intro elems
  induction elems with
  | nil =>
    intro t
    have h1 : mathTier3Raw (normalizeRegistry []) t = t := rfl
    have h2 : mathTier3 [] t = t := rfl
    rw [h1, h2]
  | cons kv rest ih =>
    obtain ⟨k, v⟩ := kv
    intro t
    show mathTier3Raw (normalizeRegistry rest)
        (if isDunder k && containsMATHci k && strContains t k then
          match normalizeVal v with
          | .str orig => pyReplace t k orig
          | .imgs _ => t
        else t)
      = mathTier3 rest
        (if isDunder k && containsMATHci k && strContains t k then
          match v with
          | .str orig => pyReplace t k (fix_formula_format orig)
          | .imgs _ => t
        else t)
    rw [ih]
    congr 1
    cases hc : (isDunder k && containsMATHci k && strContains t k) with
    | false => rfl
    | true =>
      simp only [if_pos rfl, if_true]
      cases v with
      | str orig => rfl
      | imgs l => rfl
theorem restore_formulas_normalize (text : Chars) (elems : Registry) :
    restore_formulas_raw text (normalizeRegistry elems) = restore_formulas text elems := by
  unfold restore_formulas_raw restore_formulas
  rw [mathTier1Raw_normalize, mathTier2Raw_normalize, mathTier3Raw_normalize]

theorem keysNodup_protectBlockMath (st : Chars × Registry × Nat)
    (h : (st.2.1.map Prod.fst).Nodup) :
    (((protectBlockMath st).2.1).map Prod.fst).Nodup := by
  unfold protectBlockMath
  exact foldl_preserve (fun st : Chars × Registry × Nat => (st.2.1.map Prod.fst).Nodup) _
    (fun st b hb => alistSet_keys_nodup _ _ _ hb) _ st h

theorem keysNodup_protectAllInlineMath (st : Chars × Registry × Nat)
    (h : (st.2.1.map Prod.fst).Nodup) :
    (((protectAllInlineMath st).2.1).map Prod.fst).Nodup := by
  unfold protectAllInlineMath
  exact foldl_preserve (fun st : Chars × Registry × Nat => (st.2.1.map Prod.fst).Nodup) _
    (fun st b hb => alistSet_keys_nodup _ _ _ hb) _ st h

theorem keysNodup_protectComplexMath (st : Chars × Registry × Nat)
    (h : (st.2.1.map Prod.fst).Nodup) :
    (((protectComplexMath st).2.1).map Prod.fst).Nodup := by
  unfold protectComplexMath
  refine foldl_preserve (fun st : Chars × Registry × Nat => (st.2.1.map Prod.fst).Nodup) _
    (fun st pat hp => ?_) _ st h
  refine foldl_preserve (fun st : Chars × Registry × Nat => (st.2.1.map Prod.fst).Nodup) _
    (fun st f hf => ?_) _ st hp
  dsimp only
  split
  · exact hf
  · exact alistSet_keys_nodup _ _ _ hf

theorem keysNodup_protect_formulas (text : Chars) :
    (((protect_formulas text [] 0).2.1).map Prod.fst).Nodup := by
  unfold protect_formulas
  exact keysNodup_protectComplexMath _
    (keysNodup_protectAllInlineMath _
      (keysNodup_protectBlockMath ((text, [], 0)) (by simp)))

theorem keysNodup_dropCounter (st : Chars × Registry × Nat)
    (h : (st.2.1.map Prod.fst).Nodup) :
    (((dropCounter st).2).map Prod.fst).Nodup := h

theorem keysNodup_protectCodeBlocks (te : Chars × Registry)
    (h : (te.2.map Prod.fst).Nodup) :
    (((protectCodeBlocks te).2).map Prod.fst).Nodup := by
  unfold protectCodeBlocks
  exact foldl_preserve (fun te : Chars × Registry => (te.2.map Prod.fst).Nodup) _
    (fun te b hb => alistSet_keys_nodup _ _ _ hb) _ te h

theorem keysNodup_protectInlineCode (te : Chars × Registry)
    (h : (te.2.map Prod.fst).Nodup) :
    (((protectInlineCode te).2).map Prod.fst).Nodup := by
  unfold protectInlineCode
  exact foldl_preserve (fun te : Chars × Registry => (te.2.map Prod.fst).Nodup) _
    (fun te b hb => alistSet_keys_nodup _ _ _ hb) _ te h

theorem keysNodup_protectHtmlTags (te : Chars × Registry)
    (h : (te.2.map Prod.fst).Nodup) :
    (((protectHtmlTags te).2).map Prod.fst).Nodup := by
  unfold protectHtmlTags
  exact foldl_preserve (fun te : Chars × Registry => (te.2.map Prod.fst).Nodup) _
    (fun te b hb => alistSet_keys_nodup _ _ _ hb) _ te h

theorem keysNodup_protectImages (te : Chars × Registry)
    (h : (te.2.map Prod.fst).Nodup) :
    (((protectImages te).2).map Prod.fst).Nodup := by
  unfold protectImages
  apply alistSet_keys_nodup
  refine foldl_preserve
    (fun ta : (Chars × Registry) × List ImageInfo => (ta.1.2.map Prod.fst).Nodup) _
    (fun ta b hb => alistSet_keys_nodup _ _ _ hb) _ _ ?_
  refine foldl_preserve
    (fun ta : (Chars × Registry) × List ImageInfo => (ta.1.2.map Prod.fst).Nodup) _
    (fun ta b hb => ?_) _ _ h
  dsimp only
  split
  · exact alistSet_keys_nodup _ _ _ hb
  · exact hb

theorem keysNodup_protectLinks (te : Chars × Registry)
    (h : (te.2.map Prod.fst).Nodup) :
    (((protectLinks te).2).map Prod.fst).Nodup := by
  unfold protectLinks
  refine foldl_preserve (fun te : Chars × Registry => (te.2.map Prod.fst).Nodup) _
    (fun te b hb => ?_) _ te h
  dsimp only
  split
  · exact hb
  · exact alistSet_keys_nodup _ _ _ hb

theorem protect_keys_nodup (text : Chars) :
    (((protect_special_elements text).2).map Prod.fst).Nodup := by
  unfold protect_special_elements
  apply keysNodup_protectLinks
  apply keysNodup_protectImages
  apply keysNodup_protectHtmlTags
  apply keysNodup_protectInlineCode
  apply keysNodup_protectCodeBlocks
  apply keysNodup_dropCounter
  exact keysNodup_protect_formulas text

theorem mvmStep_str_of (k tn num F : Chars)
    (hd : isDunder k = true)
    (htn : matchTypeNum k = some (tn, num))
    (hm : endsWithMATH tn = true) :
    mvmStep [] (k, .str F)
      = (placeholderVariants k tn num).foldl (fun m v => alistSet m v F) [] := by
  unfold mvmStep
  rw [htn]
  simp only [hd, hm, Bool.not_true, Bool.false_eq_true, if_false]

theorem mathVariationsMap_single (kv : Chars × ElemVal) :
    mathVariationsMap [kv] = mvmStep [] kv := rfl

theorem variants_fold_zero :
    (placeholderVariants "__BLOCK_MATH_0__".data "BLOCK_MATH".data "0".data).foldl
        (fun m v => alistSet m v ([] : Chars)) []
      = [("__BLOCK_MATH_0__".data, ([] : Chars)), ("__block_math_0__".data, []),
         ("_block_math_0_".data, []), ("_ block_math_0 _".data, []),
         ("\x7bblock_math_0\x7d".data, []), ("__ block_math _ 0 __".data, []),
         ("__block_math0__".data, []), ("__block_math-0__".data, []),
         ("__ _block_math_0__".data, []), ("___ block_math_0__".data, []),
         ("__ block_math_0__".data, [])] := by decide

theorem mvm_single_block (F : Chars) :
    mathVariationsMap [("__BLOCK_MATH_0__".data, ElemVal.str F)]
      = [("__BLOCK_MATH_0__".data, F), ("__block_math_0__".data, F),
         ("_block_math_0_".data, F), ("_ block_math_0 _".data, F),
         ("\x7bblock_math_0\x7d".data, F), ("__ block_math _ 0 __".data, F),
         ("__block_math0__".data, F), ("__block_math-0__".data, F),
         ("__ _block_math_0__".data, F), ("___ block_math_0__".data, F),
         ("__ block_math_0__".data, F)] := by
  rw [mathVariationsMap_single,
    mvmStep_str_of "__BLOCK_MATH_0__".data "BLOCK_MATH".data "0".data F
      (by decide) (by decide) (by decide)]
  have h2 := foldl_alistSet_map (fun _ => F) []
      (placeholderVariants "__BLOCK_MATH_0__".data "BLOCK_MATH".data "0".data) []
  simp only [List.map_nil] at h2
  rw [variants_fold_zero] at h2
  simp only [List.map_cons, List.map_nil] at h2
  exact h2

theorem mathTier2_of_no_matches (elems : Registry) (t : Chars)
    (h : ∀ ps ∈ math_placeholder_patterns,
      reFindall (fun s => matchMathPh ps.1 ps.2 s) t = []) :
    mathTier2 elems t = t := by
  unfold mathTier2
  apply foldl_id_of_mem
  intro ps hps
  rw [h ps hps]
  rfl

theorem mathTier3_single_absent (ph orig t : Chars)
    (h : strContains t ph = false) :
    mathTier3 [(ph, ElemVal.str orig)] t = t := by
  unfold mathTier3
  simp only [List.foldl_cons, List.foldl_nil]
  rw [h]
  simp

set_option maxRecDepth 20000

/-- C1 counterexample: the protect-then-restore round trip with the
identity transform is not the identity on every document text: on the
one-character prose input `（` (a full-width parenthesis, no protected
spans), `restore_special_elements` unconditionally rewrites the full-width
punctuation, returning `(`, which differs from the input; the repair pass
keeps the corrupted value. -/
theorem c1_roundtrip_counterexample :
    protectRestoreRoundTrip "（".data = "(".data ∧
    protectRestoreRepairRoundTrip "（".data = "(".data ∧
    "(".data ≠ "（".data := ⟨by decide, by decide, by decide⟩

/-- C1 (amended): on the scenario input `"See $E=mc^2$ and ![](img/a.png)."`
protecting, applying the identity transform, then recovering yields the
original string byte-for-byte, and the document-level repair pass preserves
it; the universal round-trip identity fails in general (see the
counterexample). -/
theorem c1_roundtrip_scenario :
    protectRestoreRoundTrip "See $E=mc^2$ and ![](img/a.png).".data
      = "See $E=mc^2$ and ![](img/a.png).".data ∧
    protectRestoreRepairRoundTrip "See $E=mc^2$ and ![](img/a.png).".data
      = "See $E=mc^2$ and ![](img/a.png).".data := ⟨by decide, by decide⟩

/-- C2 counterexample: with `__BLOCK_MATH_0__ ↦ $$a+b$$` registered, a text
carrying the lower-cased, double-underscore-stripped corruption
`block_math_0` is returned **unchanged** by `restore_formulas` — no variant
table entry, scan pattern, or verbatim fallback matches the bare form — so
the output is not the claimed restoration. -/
theorem c2_stripped_placeholder_not_recovered :
    restore_formulas "See block_math_0 here.".data
        [("__BLOCK_MATH_0__".data, .str "$$a+b$$".data)]
      = "See block_math_0 here.".data ∧
    "See block_math_0 here.".data ≠ "See $$a+b$$ here.".data := ⟨by decide, by decide⟩

/-- C2 (amended): for every document text and registered block formula F,
provided the text does not already contain the intact placeholder
`__BLOCK_MATH_0__`, and the text with the lower-cased variant substituted
contains no other variant-table entry, no tier-2 math-placeholder pattern
match and no verbatim placeholder, `restore_formulas` rewrites exactly the
lower-cased, underscores-intact corruption `__block_math_0__`, substituting
`fix_formula_format F` — the normalized formula, not necessarily the raw
registered text.  The fully underscore-stripped form `block_math_0` matches
no tier and is left verbatim (see the counterexample above). -/
theorem c2_lowercased_variant_recovered (text F : Chars)
    (hph : strContains text "__BLOCK_MATH_0__".data = false)
    (hothers : ∀ v ∈ blockMathZeroOtherVariants,
      strContains (pyReplace text "__block_math_0__".data (fix_formula_format F)) v = false)
    (hscan : ∀ ps ∈ math_placeholder_patterns,
      reFindall (fun s => matchMathPh ps.1 ps.2 s)
        (pyReplace text "__block_math_0__".data (fix_formula_format F)) = [])
    (hph2 : strContains (pyReplace text "__block_math_0__".data (fix_formula_format F))
      "__BLOCK_MATH_0__".data = false) :
    restore_formulas text [("__BLOCK_MATH_0__".data, ElemVal.str F)]
      = pyReplace text "__block_math_0__".data (fix_formula_format F) := by
  have h1 : mathTier1 [("__BLOCK_MATH_0__".data, ElemVal.str F)] text
      = pyReplace text "__block_math_0__".data (fix_formula_format F) := by
    unfold mathTier1
    rw [mvm_single_block]
    simp only [List.foldl_cons, List.foldl_nil]
    rw [pyReplace_of_not_contains text "__BLOCK_MATH_0__".data (fix_formula_format F) hph]
    rw [pyReplace_of_not_contains _ "_block_math_0_".data _
      (hothers "_block_math_0_".data (by decide))]
    rw [pyReplace_of_not_contains _ "_ block_math_0 _".data _
      (hothers "_ block_math_0 _".data (by decide))]
    rw [pyReplace_of_not_contains _ "\x7bblock_math_0\x7d".data _
      (hothers "\x7bblock_math_0\x7d".data (by decide))]
    rw [pyReplace_of_not_contains _ "__ block_math _ 0 __".data _
      (hothers "__ block_math _ 0 __".data (by decide))]
    rw [pyReplace_of_not_contains _ "__block_math0__".data _
      (hothers "__block_math0__".data (by decide))]
    rw [pyReplace_of_not_contains _ "__block_math-0__".data _
      (hothers "__block_math-0__".data (by decide))]
    rw [pyReplace_of_not_contains _ "__ _block_math_0__".data _
      (hothers "__ _block_math_0__".data (by decide))]
    rw [pyReplace_of_not_contains _ "___ block_math_0__".data _
      (hothers "___ block_math_0__".data (by decide))]
    rw [pyReplace_of_not_contains _ "__ block_math_0__".data _
      (hothers "__ block_math_0__".data (by decide))]
  show mathTier3 _ (mathTier2 _ (mathTier1 _ text)) = _
  rw [h1, mathTier2_of_no_matches _ _ hscan,
    mathTier3_single_absent _ _ _ hph2]

/-- C2 witness: the theorem instantiated at the spec scenario, text
`See __block_math_0__ here.` with registered formula `$$a+b$$` (which the
Formula Normalizer leaves unchanged), every side condition discharged by
evaluation. -/
theorem c2_lowercased_variant_recovered_witness :
    restore_formulas "See __block_math_0__ here.".data
        [("__BLOCK_MATH_0__".data, ElemVal.str "$$a+b$$".data)]
      = pyReplace "See __block_math_0__ here.".data "__block_math_0__".data
          (fix_formula_format "$$a+b$$".data) :=
  c2_lowercased_variant_recovered "See __block_math_0__ here.".data "$$a+b$$".data
    (by decide) (by decide) (by decide) (by decide)

/-- C3: evaluation of the code at the claim's input.  For a unit with the
three untitled images `[a.png, b.png, c.png]` and transformed text
`imagelink0 imagelink1 imagelink2`, `restore_special_elements` replaces
every occurrence of the bare substring `imagelink` (a map key produced by
the buggy `placeholder.split('_')[-2]`, which always yields the empty
string) with the **last** image, producing
`![](c.png)0 ![](c.png)1 ![](c.png)2` instead of the three respective
images; `fix_markdown_format` applied directly to the same corrupted text
does produce the claimed positional recovery. -/
theorem c3_positional_fallback_evaluation :
    restore_special_elements "imagelink0 imagelink1 imagelink2".data
        (protect_special_elements "![](a.png) ![](b.png) ![](c.png)".data).2
      = "![](c.png)0 ![](c.png)1 ![](c.png)2".data ∧
    fix_markdown_format "imagelink0 imagelink1 imagelink2".data
        (some (protect_special_elements "![](a.png) ![](b.png) ![](c.png)".data).2)
      = "![](a.png) ![](b.png) ![](c.png)".data := ⟨by decide, by decide⟩

/-- C4 counterexample: `fix_formula_format` is not idempotent.  On the
formula string `{{}}` one application removes the inner empty brace pair,
leaving `{}`, and a second application removes that as well, so
`fix(fix x) ≠ fix x`. -/
theorem c4_idempotence_counterexample :
    fix_formula_format "\x7b\x7b\x7d\x7d".data = "\x7b\x7d".data ∧
    fix_formula_format "\x7b\x7d".data = [] ∧
    fix_formula_format (fix_formula_format "\x7b\x7b\x7d\x7d".data)
      ≠ fix_formula_format "\x7b\x7b\x7d\x7d".data := ⟨by decide, by decide, by decide⟩

/-- C4 (amended): idempotence holds only when a single application already
reaches a fixed point, i.e. when no rewrite creates a new redex — as on the
typical formula `$ a$`, which one application normalises to `$a$` and a
second application leaves unchanged; it fails on formulas with nested
redexes such as `{{}}` (see the counterexample). -/
theorem c4_idempotent_after_one_application :
    fix_formula_format "$ a$".data = "$a$".data ∧
    fix_formula_format "$a$".data = "$a$".data ∧
    "$a$".data ≠ "$ a$".data := ⟨by decide, by decide, by decide⟩

/-- C5 counterexample: the numeric component is **not** drawn from one
counter shared across all span kinds.  Protecting `$a$ `b`` registers both
`__ALL_MATH_0__` and `__INLINE_CODE_0__`: two distinct placeholders of one
unit whose numeric components are both 0, because only the math passes
share a counter while each other kind enumerates from 0 independently. -/
theorem c5_shared_counter_counterexample :
    regKeys (protect_special_elements "$a$ `b`".data).2
      = ["__ALL_MATH_0__".data, "__INLINE_CODE_0__".data, "__ALL_IMAGE_PATHS__".data] ∧
    placeholderNum "__ALL_MATH_0__".data = some 0 ∧
    placeholderNum "__INLINE_CODE_0__".data = some 0 ∧
    "__ALL_MATH_0__".data ≠ "__INLINE_CODE_0__".data :=
  ⟨by decide, by decide, by decide, by decide⟩

/-- C5 (amended): the placeholder keys of one unit's registry are pairwise
distinct for every input text — every registry extension goes through the
update-or-append `alistSet`, so key uniqueness is invariant across all
protection passes — but the numeric component is shared only among the math
span kinds: protecting `$$x$$ $y$` yields `__BLOCK_MATH_0__` then
`__ALL_MATH_1__` from the one threaded counter, while each non-math kind
enumerates from zero, so `$a$ `b`` yields the distinct placeholders
`__ALL_MATH_0__` and `__INLINE_CODE_0__` sharing the numeral 0. -/
theorem c5_math_counter_shared :
    (∀ text : Chars, (regKeys (protect_special_elements text).2).Nodup) ∧
    regKeys (protect_special_elements "$$x$$ $y$".data).2
      = ["__BLOCK_MATH_0__".data, "__ALL_MATH_1__".data, "__ALL_IMAGE_PATHS__".data] ∧
    regKeys (protect_special_elements "$a$ `b`".data).2
      = ["__ALL_MATH_0__".data, "__INLINE_CODE_0__".data, "__ALL_IMAGE_PATHS__".data] :=
  ⟨fun text => protect_keys_nodup text, by decide, by decide⟩

/-- C6: evaluation of the code at the claim's input.  When source and
target language coincide, `translate_markdown` runs protect, then only
`LatexFormulaHandler.restore_formulas` — never `restore_special_elements` —
so a non-math span such as the inline code `` `b` `` is left as its
placeholder in the final output, contradicting the claim that all
registered spans are restored. -/
theorem c6_same_language_leaves_placeholder :
    translateMarkdownSameLang "a `b` c".data "zh".data "zh".data "google".data []
      = "a __INLINE_CODE_0__ c".data ∧
    "a __INLINE_CODE_0__ c".data ≠ "a `b` c".data := ⟨by decide, by decide⟩

/-- C7: heading repair.  For any line consisting of one or more hash-like
markers (ASCII `#` or full-width `＃`) followed by non-marker content,
`fix_markdown_format` rewrites the markers to the same number of ASCII `#`
and inserts exactly one space before the content when none is present (and
leaves an existing leading space alone). -/
theorem c7_heading_repair (hs rest : Chars)
    (hne : hs ≠ [])
    (hhash : ∀ c ∈ hs, c = '#' ∨ c = '＃')
    (hnl : ∀ c ∈ rest, c ≠ '\n')
    (hhead : ∀ c ∈ rest.take 1, ¬(c = '#' ∨ c = '＃')) :
    fix_markdown_format (hs ++ rest) none =
      List.replicate hs.length '#' ++
        (if rest.head? = some ' ' then rest else ' ' :: rest) := by
  have hline : ∀ c ∈ hs ++ rest, c ≠ '\n' := by
    intro c hc
    rcases List.mem_append.mp hc with h1 | h2
    · rcases hhash c h1 with rfl | rfl <;> decide
    · exact hnl c h2
  have htw : (hs ++ rest).takeWhile isHashChar = hs := by
    apply takeWhile_app
    · intro c hc
      rcases hhash c hc with rfl | rfl <;> decide
    · cases rest with
      | nil => intro c hc; cases hc
      | cons c' cs =>
        intro c hc
        have hcc : c' = c := by
          have : (c' :: cs).head? = some c' := rfl
          rw [this] at hc
          injection hc
        subst hcc
        have h := hhead c' (by simp)
        push_neg at h
        simp only [isHashChar, Bool.or_eq_false_iff, decide_eq_false_iff_not]
        exact ⟨h.1, h.2⟩
  unfold fix_markdown_format
  simp only []
  rw [imageLinkSub_id]
  rw [fixHeadings_single_line _ hline]
  simp only [fixHeadingLine]
  rw [htw]
  rw [if_neg hne]
  rw [List.drop_left]

/-- C7 witness: the spec's concrete instance — the input line `＃＃Title`
(full-width hashes, no space) becomes `## Title`. -/
theorem c7_heading_repair_witness :
    fix_markdown_format "＃＃Title".data none = "## Title".data := by
  have e1 : "＃＃".data ++ "Title".data = "＃＃Title".data := by decide
  have h := c7_heading_repair "＃＃".data "Title".data
    (by decide) (by decide) (by decide) (by decide)
  rw [e1] at h
  rw [h]
  decide

/-- C8: cache round trip.  On the in-memory `TranslationCache`,
`set k v` followed by `get k` returns `v`, and after `clear` every `get`
returns the absent default (`none`). -/
theorem c8_cache_roundtrip (tc : TranslationCache) (k v : Chars) :
    (tc.set k v).get k = some v ∧ (TranslationCache.clear tc).get k = none :=
  ⟨alistGet?_alistSet tc.cache k v, rfl⟩

/-- C9: for every text and every registry, `restore_formulas` coincides
with the raw-substitution contrast model — `restore_formulas` with
`fix_formula_format` removed from all three substitution sites — run on the
registry with every stored formula normalized: each tier substitutes
`fix_formula_format original`, never the raw original span text.  The
concrete instance separates the two: with registered original `$ x$` the
code restores `$x$` where raw substitution yields `$ x$`, and the Formula
Normalizer does change `$ x$`. -/
theorem c9_normalized_not_raw :
    (∀ (text : Chars) (elems : Registry),
        restore_formulas text elems = restore_formulas_raw text (normalizeRegistry elems)) ∧
    restore_formulas "k __ALL_MATH_0__ m".data
        [("__ALL_MATH_0__".data, .str "$ x$".data)] = "k $x$ m".data ∧
    restore_formulas_raw "k __ALL_MATH_0__ m".data
        [("__ALL_MATH_0__".data, .str "$ x$".data)] = "k $ x$ m".data ∧
    fix_formula_format "$ x$".data ≠ "$ x$".data :=
  ⟨fun text elems => (restore_formulas_normalize text elems).symm,
    by decide, by decide, by decide⟩

/-- C10: for every input text, `restore_special_elements` with an empty
registry is exactly heading repair after image-path repair after the
unconditional full-width punctuation repair; that punctuation repair is the
character-for-character rewriting `！[` → `![` then `）` → `)` and `（` →
`(`, and for every text its output contains no `（`, no `）` and no `！[`.
The concrete pure-prose input shows every occurrence rewritten. -/
theorem c10_fullwidth_punctuation_globally_replaced :
    (∀ t : Chars, restore_special_elements t [] =
        fixHeadings (imagePathRepairSub (fullwidthPunctRepair t))) ∧
    (∀ t : Chars, fullwidthPunctRepair t =
        ((pyReplace t "！[".data "![".data).map
            (fun c => if c = '）' then ')' else c)).map
          (fun c => if c = '（' then '(' else c)) ∧
    (∀ t : Chars,
        strContains (fullwidthPunctRepair t) "（".data = false ∧
        strContains (fullwidthPunctRepair t) "）".data = false ∧
        strContains (fullwidthPunctRepair t) "！[".data = false) ∧
    restore_special_elements "他说（好）和（再）见 ！[x]".data []
      = "他说(好)和(再)见 ![x]".data :=
  ⟨restoreSE_empty_registry, fullwidthPunctRepair_expand, fullwidthPunctRepair_clean, by decide⟩

end MarkdownBridge
